import Mathlib

/-!
Verification of the configuration override engine of the kapacitor repository.

The development shallowly embeds the two generations of the `override`
package found in the sources (the one in `services/config/override` used by
`services/config/service.go`, called `V1` below, and the newer generation
shipped alongside the service tests, called `V2` below), the config service
HTTP handlers, and the notification adapters' `Update` hooks.

Go's reflection-driven walkers are modelled over an explicit universe of Go
values (`GoVal`).  Machine integers are `Int`/`Nat` with explicit wrapping at
the width where Go conversions truncate; floating point payloads are modelled
as exact rationals (every value the claims touch, such as 42, is exactly
representable, and float rounding is never exercised by the claims).
Stateful code (the override store, adapter fields) is explicit state passing.
-/

/-! ## Go reflection kinds (`reflect.Kind`), numbered as in package reflect -/

inductive Kind where
  | invalid | bool | int | int8 | int16 | int32 | int64
  | uint | uint8 | uint16 | uint32 | uint64 | uintptr
  | float32 | float64 | complex64 | complex128
  | array | chan | func | interface | map | ptr | slice | string | struct
deriving DecidableEq, Repr

/-- The numeric value of a `reflect.Kind` (its iota in package reflect). -/
def Kind.num : Kind → Nat
  | .invalid => 0 | .bool => 1 | .int => 2 | .int8 => 3 | .int16 => 4
  | .int32 => 5 | .int64 => 6 | .uint => 7 | .uint8 => 8 | .uint16 => 9
  | .uint32 => 10 | .uint64 => 11 | .uintptr => 12 | .float32 => 13
  | .float64 => 14 | .complex64 => 15 | .complex128 => 16 | .array => 17
  | .chan => 18 | .func => 19 | .interface => 20 | .map => 21 | .ptr => 22
  | .slice => 23 | .string => 24 | .struct => 25

/-- `isNumericKind` from override.go: `k >= reflect.Int && k <= reflect.Float64`. -/
def isNumericKind (k : Kind) : Bool :=
  Kind.num .int ≤ k.num && k.num ≤ Kind.num .float64

/-- `isIntKind`: `k >= reflect.Int && k <= reflect.Int64`. -/
def isIntKind (k : Kind) : Bool :=
  Kind.num .int ≤ k.num && k.num ≤ Kind.num .int64

/-- `isUintKind`: `k >= reflect.Uint && k <= reflect.Uint64`. -/
def isUintKind (k : Kind) : Bool :=
  Kind.num .uint ≤ k.num && k.num ≤ Kind.num .uint64

/-- `isFloatKind`: `k == reflect.Float32 || k == reflect.Float64`. -/
def isFloatKind (k : Kind) : Bool :=
  k == .float32 || k == .float64

/-! ## Numeric widths -/

/-- Signed integer widths (`int` is 64-bit on the supported platforms). -/
inductive IntW where
  | i | i8 | i16 | i32 | i64
deriving DecidableEq, Repr

def IntW.bits : IntW → Nat
  | .i => 64 | .i8 => 8 | .i16 => 16 | .i32 => 32 | .i64 => 64

def IntW.kind : IntW → Kind
  | .i => .int | .i8 => .int8 | .i16 => .int16 | .i32 => .int32 | .i64 => .int64

/-- Unsigned integer widths (`uint` is 64-bit on the supported platforms). -/
inductive UintW where
  | u | u8 | u16 | u32 | u64
deriving DecidableEq, Repr

def UintW.bits : UintW → Nat
  | .u => 64 | .u8 => 8 | .u16 => 16 | .u32 => 32 | .u64 => 64

def UintW.kind : UintW → Kind
  | .u => .uint | .u8 => .uint8 | .u16 => .uint16 | .u32 => .uint32 | .u64 => .uint64

inductive FloatW where
  | f32 | f64
deriving DecidableEq, Repr

def FloatW.kind : FloatW → Kind
  | .f32 => .float32 | .f64 => .float64

/-- Two's-complement truncation of an integer to a signed width, as performed
by Go conversions between integer types and by `reflect.Value.SetInt`. -/
def wrapSigned (bits : Nat) (v : Int) : Int :=
  (v + 2 ^ (bits - 1)) % (2 ^ bits : Nat) - 2 ^ (bits - 1)

/-- Truncation of an integer to an unsigned width (Go conversion semantics). -/
def wrapUnsigned (bits : Nat) (v : Int) : Nat :=
  (v % (2 ^ bits : Nat)).toNat

/-! ## The Go value universe

Struct field metadata mirrors `reflect.StructField`: the declared Go name,
the raw `override` and `toml` struct tags (`""` models an absent tag, which
is what `Tag.Get` returns for one), and settability (`CanSet`, false for
unexported fields). -/

structure FieldMeta where
  fname : String
  tagOverride : String := ""
  tagToml : String := ""
  canSet : Bool := true
deriving DecidableEq, Repr

/-- A Go value, as seen through `reflect`.  `slice` carries the kind of its
element type (the model compares container element types by kind) and `none`
elements model a nil slice.  `strukt` carries the named type's name and its
fields.  `dur` models a named `int64` type implementing
`encoding.TextUnmarshaler` (such as a TOML duration), the capability
interface exercised by the value coercer. -/
inductive GoVal where
  | str : String → GoVal
  | vbool : Bool → GoVal
  | vint : IntW → Int → GoVal
  | vuint : UintW → Nat → GoVal
  | vfloat : FloatW → Rat → GoVal
  | slice : Kind → Option (List GoVal) → GoVal
  | array : List GoVal → GoVal
  | ptr : Option GoVal → GoVal
  | strukt : String → List (FieldMeta × GoVal) → GoVal
  | dur : Int → GoVal

def GoVal.kind : GoVal → Kind
  | .str _ => .string
  | .vbool _ => .bool
  | .vint w _ => w.kind
  | .vuint w _ => w.kind
  | .vfloat w _ => w.kind
  | .slice _ _ => .slice
  | .array _ => .array
  | .ptr _ => .ptr
  | .strukt _ _ => .struct
  | .dur _ => .int64

/-- Structural type equality (`dst.Type() == src.Type()` in the source).
Named types are distinguished by name; `dur` is a named type distinct from
plain `int64`; container element types are compared by kind. -/
def GoVal.sameType : GoVal → GoVal → Bool
  | .str _, .str _ => true
  | .vbool _, .vbool _ => true
  | .vint w _, .vint w' _ => w == w'
  | .vuint w _, .vuint w' _ => w == w'
  | .vfloat w _, .vfloat w' _ => w == w'
  | .slice k _, .slice k' _ => k == k'
  | .array _, .array _ => true
  | .ptr _, .ptr _ => true
  | .strukt n _, .strukt n' _ => n == n'
  | .dur _, .dur _ => true
  | _, _ => false

mutual
/-- The recursive copy performed by `copystructure.Copy`: a fresh value deeply
equal to the input. -/
def deepCopy : GoVal → GoVal
  | .str s => .str s
  | .vbool b => .vbool b
  | .vint w v => .vint w v
  | .vuint w v => .vuint w v
  | .vfloat w v => .vfloat w v
  | .slice k none => .slice k none
  | .slice k (some es) => .slice k (some (deepCopyList es))
  | .array es => .array (deepCopyList es)
  | .ptr none => .ptr none
  | .ptr (some v) => .ptr (some (deepCopy v))
  | .strukt n fs => .strukt n (deepCopyFields fs)
  | .dur v => .dur v
termination_by structural v => v

def deepCopyList : List GoVal → List GoVal
  | [] => []
  | v :: vs => deepCopy v :: deepCopyList vs
termination_by structural l => l

def deepCopyFields : List (FieldMeta × GoVal) → List (FieldMeta × GoVal)
  | [] => []
  | (m, v) :: fs => (m, deepCopy v) :: deepCopyFields fs
termination_by structural fs => fs
end

/-! ## Association lists

Go's `map[string]T` values are modelled as association lists with
map-extensional operations (`delete` removes the key, assignment replaces
it). -/

def lookupKey {α : Type} : List (String × α) → String → Option α
  | [], _ => none
  | (k, v) :: rest, n => if k = n then some v else lookupKey rest n

def setKey {α : Type} : List (String × α) → String → α → List (String × α)
  | [], n, v => [(n, v)]
  | (k, w) :: rest, n, v =>
      if k = n then (n, v) :: rest else (k, w) :: setKey rest n v

def eraseKey {α : Type} : List (String × α) → String → List (String × α)
  | [], _ => []
  | (k, w) :: rest, n =>
      if k = n then eraseKey rest n else (k, w) :: eraseKey rest n

/-! ## String helpers

Kernel-reducible models of `strings.Split` on a single-character separator,
of the digit parsers behind `strconv`, and of prefix tests. -/

def splitChars (sep : Char) : List Char → List (List Char)
  | [] => [[]]
  | c :: cs =>
    match splitChars sep cs with
    | [] => [[]]
    | l :: ls => if c = sep then [] :: l :: ls else (c :: l) :: ls

/-- `strings.Split(s, ",")`. -/
def splitComma (s : String) : List String :=
  (splitChars ',' s.data).map String.mk

def isDigitChar (c : Char) : Bool :=
  48 ≤ c.toNat && c.toNat ≤ 57

def parseDigitsAux : List Char → Nat → Option Nat
  | [], acc => some acc
  | c :: cs, acc =>
      if isDigitChar c then parseDigitsAux cs (acc * 10 + (c.toNat - 48)) else none

/-- A non-empty all-digit run, as a number. -/
def parseDigits : List Char → Option Nat
  | [] => none
  | c :: cs => parseDigitsAux (c :: cs) 0

/-- `strconv.ParseInt(s, 10, 64)`: optional sign, digits, 64-bit range check.
`none` models a non-nil error (syntax or range). -/
def parseInt64 (s : String) : Option Int :=
  match s.data with
  | [] => none
  | c :: cs =>
    if c = '-' then
      (parseDigits cs).bind fun n =>
        if (n : Int) ≤ 2 ^ 63 then some (-(n : Int)) else none
    else if c = '+' then
      (parseDigits cs).bind fun n => if n < 2 ^ 63 then some (n : Int) else none
    else
      (parseDigits (c :: cs)).bind fun n => if n < 2 ^ 63 then some (n : Int) else none

/-- `strconv.ParseUint(s, 10, 64)`: digits only (no sign), 64-bit range. -/
def parseUint64 (s : String) : Option Nat :=
  (parseDigits s.data).bind fun n => if n < 2 ^ 64 then some n else none

/-- `strconv.ParseFloat(s, 64)`, restricted to the plain decimal forms the
engine's callers use (optional sign, integer part, optional fraction; the
exponent, hex and inf/nan forms are outside the modelled fragment). -/
def parseFloat64 (s : String) : Option Rat :=
  let core : List Char → Option Rat := fun cs =>
    match splitChars '.' cs with
    | [ip] => (parseDigits ip).map (fun n => (n : Rat))
    | [[], []] => none
    | [ip, fp] =>
        let ipn := if ip.isEmpty then some 0 else parseDigits ip
        let fpn := if fp.isEmpty then some 0 else parseDigits fp
        ipn.bind fun a => fpn.map fun b => (a : Rat) + mkRat b (10 ^ fp.length)
    | _ => none
  match s.data with
  | [] => none
  | c :: cs =>
    if c = '-' then (core cs).map (fun q => -q)
    else if c = '+' then core cs
    else core (c :: cs)

def strHasLeadingAux : List Char → List Char → Bool
  | [], _ => true
  | _ :: _, [] => false
  | p :: ps, c :: cs => p == c && strHasLeadingAux ps cs

/-- `strings.HasPrefix s pat`. -/
def strHasLeading (pat s : String) : Bool :=
  strHasLeadingAux pat.data s.data

/-- `strings.TrimPrefix s pat` for a string that does start with `pat`. -/
def strDropLeading (pat s : String) : String :=
  String.mk (s.data.drop pat.data.length)

/-! ## Struct tag readers (identical in both generations of the package) -/

/-- `OptionNameFunc` resolves a field's option name from its metadata. -/
def OptionNameFunc : Type := FieldMeta → String

/-- `tagFieldName`: first comma-separated component of the tag value, falling
back to the Go field name when empty. -/
def tagFieldName (tagVal : String) (fname : String) : String :=
  let name := (splitComma tagVal).headD ""
  if name = "" then fname else name

/-- `TomlFieldName`: option name from the `toml` struct tag. -/
def TomlFieldName (f : FieldMeta) : String :=
  tagFieldName f.tagToml f.fname

/-- `OverrideFieldName`: option name from the `override` struct tag. -/
def OverrideFieldName (f : FieldMeta) : String :=
  tagFieldName f.tagOverride f.fname

/-- `isRedacted`: the `override` tag carries a `redact` keyword after the
first comma. -/
def isRedacted (f : FieldMeta) : Bool :=
  ((splitComma f.tagOverride).tail).any (· == "redact")

/-- `getElementKey` (newer generation): the `element-key=<field>` component of
the `override` tag, or `""`. -/
def getElementKey (f : FieldMeta) : String :=
  match ((splitComma f.tagOverride).tail).find? (fun p => strHasLeading "element-key=" p) with
  | some p => strDropLeading "element-key=" p
  | none => ""

/-! ## `isZero` (identical in both generations) -/

mutual
/-- `isZero`: structural comparison against the zero value.  Reference kinds
(slices; the model has no funcs or maps) are zero when nil, arrays when all
elements are zero, structs when all settable fields are zero, and everything
else when equal to its type's zero value (a nil pointer for pointers). -/
def isZero : GoVal → Bool
  | .str s => s == ""
  | .vbool b => b == false
  | .vint _ v => v == 0
  | .vuint _ v => v == 0
  | .vfloat _ q => q == 0
  | .slice _ es => es.isNone
  | .array es => isZeroList es
  | .ptr p => p.isNone
  | .strukt _ fs => isZeroFields fs
  | .dur v => v == 0
termination_by structural v => v

def isZeroList : List GoVal → Bool
  | [] => true
  | v :: vs => isZero v && isZeroList vs
termination_by structural l => l

def isZeroFields : List (FieldMeta × GoVal) → Bool
  | [] => true
  | (m, v) :: fs => (!m.canSet || isZero v) && isZeroFields fs
termination_by structural fs => fs
end

/-- `getRedactedValue`: a redacted field turns into the boolean "non-zero?",
any other field keeps its value. -/
def getRedactedValue (f : FieldMeta) (v : GoVal) : GoVal :=
  if isRedacted f then .vbool (!isZero v) else v

mutual
/-- The `redactWalker` pass over an element value: every field reached at
depth 0 (through pointer indirection, and through the elements of a walked
slice) lands in the options map under its option name. -/
def redactOptions (nameFn : FieldMeta → String) :
    GoVal → List (String × GoVal) → List (String × GoVal)
  | .strukt _ fs, acc => redactFieldsFold nameFn fs acc
  | .ptr (some w), acc => redactOptions nameFn w acc
  | .slice _ (some es), acc => redactElemsFold nameFn es acc
  | _, acc => acc
termination_by structural v => v

def redactFieldsFold (nameFn : FieldMeta → String) :
    List (FieldMeta × GoVal) → List (String × GoVal) → List (String × GoVal)
  | [], acc => acc
  | (m, v) :: fs, acc => redactFieldsFold nameFn fs (setKey acc (nameFn m) (getRedactedValue m v))
termination_by structural fs => fs

def redactElemsFold (nameFn : FieldMeta → String) :
    List GoVal → List (String × GoVal) → List (String × GoVal)
  | [], acc => acc
  | e :: es, acc => redactElemsFold nameFn es (redactOptions nameFn e acc)
termination_by structural es => es
end

/-- `Element.Redacted` / `Section.Redacted`: the collected options map. -/
def Redacted (nameFn : FieldMeta → String) (v : GoVal) : List (String × GoVal) :=
  redactOptions nameFn v []

/-! ## Numeric conversion (`reflect.Value.Convert` between numeric types) -/

/-- Truncation of a rational toward zero, as Go float-to-integer conversion. -/
def ratTrunc (q : Rat) : Int :=
  if 0 ≤ q then q.floor else q.ceil

/-- The integer reading of a numeric source value (floats truncate). -/
def numAsInt : GoVal → Int
  | .vint _ v => v
  | .vuint _ v => (v : Int)
  | .vfloat _ q => ratTrunc q
  | .dur v => v
  | _ => 0

/-- The rational reading of a numeric source value. -/
def numAsRat : GoVal → Rat
  | .vint _ v => (v : Rat)
  | .vuint _ v => (v : Rat)
  | .vfloat _ q => q
  | .dur v => (v : Rat)
  | _ => 0

/-- `src.Convert(dst.Type())` for numeric kinds: integer conversions wrap at
the destination width, integer/float conversions are exact for integers and
truncate toward zero for floats.  (Rounding a float64 payload to float32 is
not modelled; the claims only exercise exactly representable values.) -/
def convertNumeric (src dst : GoVal) : GoVal :=
  match dst with
  | .vint w _ => .vint w (wrapSigned w.bits (numAsInt src))
  | .vuint w _ => .vuint w (wrapUnsigned w.bits (numAsInt src))
  | .vfloat w _ => .vfloat w (numAsRat src)
  | .dur _ => .dur (wrapSigned 64 (numAsInt src))
  | _ => dst

/-- Go names of the kinds, for error messages. -/
def kindName : Kind → String
  | .invalid => "invalid" | .bool => "bool" | .int => "int" | .int8 => "int8"
  | .int16 => "int16" | .int32 => "int32" | .int64 => "int64" | .uint => "uint"
  | .uint8 => "uint8" | .uint16 => "uint16" | .uint32 => "uint32"
  | .uint64 => "uint64" | .uintptr => "uintptr" | .float32 => "float32"
  | .float64 => "float64" | .complex64 => "complex64"
  | .complex128 => "complex128" | .array => "array" | .chan => "chan"
  | .func => "func" | .interface => "interface" | .map => "map" | .ptr => "ptr"
  | .slice => "slice" | .string => "string" | .struct => "struct"

/-- `reflect.Value.SetInt`: stores a parsed `int64`, truncating to the
destination's width. -/
def setIntVal (dst : GoVal) (i : Int) : GoVal :=
  match dst with
  | .vint w _ => .vint w (wrapSigned w.bits i)
  | _ => dst

/-- `reflect.Value.SetUint`. -/
def setUintVal (dst : GoVal) (n : Nat) : GoVal :=
  match dst with
  | .vuint w _ => .vuint w (wrapUnsigned w.bits (n : Int))
  | _ => dst

/-- `reflect.Value.SetFloat` (float32 rounding not modelled). -/
def setFloatVal (dst : GoVal) (q : Rat) : GoVal :=
  match dst with
  | .vfloat w _ => .vfloat w q
  | _ => dst

/-- The zero value `reflect.Indirect(reflect.New(t))` of a type known to the
model only by kind (used when the coercer allocates fresh slice elements).
Kinds outside the modelled universe fall back to an empty struct. -/
def zeroOfKind : Kind → GoVal
  | .string => .str ""
  | .bool => .vbool false
  | .int => .vint .i 0
  | .int8 => .vint .i8 0
  | .int16 => .vint .i16 0
  | .int32 => .vint .i32 0
  | .int64 => .vint .i64 0
  | .uint => .vuint .u 0
  | .uint8 => .vuint .u8 0
  | .uint16 => .vuint .u16 0
  | .uint32 => .vuint .u32 0
  | .uint64 => .vuint .u64 0
  | .float32 => .vfloat .f32 0
  | .float64 => .vfloat .f64 0
  | .slice => .slice .invalid none
  | .ptr => .ptr none
  | _ => .strukt "" []

namespace V2

/-- The `UnmarshalText` behaviour of the modelled `TextUnmarshaler` type
(`dur`): a run of digits is accepted, anything else is a non-nil error. -/
def durUnmarshalText (text : String) : Except String Int :=
  match parseDigits text.data with
  | some n => .ok (n : Int)
  | none => .error ("invalid duration string " ++ text)

/-- `addrDst.Type().Implements(textUnmarshalerType)`: of the modelled types,
only `dur` implements `encoding.TextUnmarshaler`. -/
def isTextUnmarshaler : GoVal → Bool
  | .dur _ => true
  | _ => false

mutual
/-- `weakCopyValue` (newer generation, shipped with the service tests):
the branch order of the source is preserved: settability, same-kind copy
(direct or element-wise for mismatched container types), textual unmarshal,
weak numeric copy, wrong kind.  No modelled source value implements
`fmt.Stringer`, so the string-like test reduces to the string kind.

Note the textual-unmarshal branch reproduces the source faithfully,
including its slip: `errors.Wrap(err, "failed to unmarshal text")` discards
its result, so a failing `UnmarshalText` leaves the destination as the
unmarshaler left it and the copy reports success. -/
def weakCopyValue (src dst : GoVal) (canSet : Bool) : Except String GoVal :=
  if !canSet then .error "not settable"
  else
    let srcK := src.kind
    let dstK := dst.kind
    if srcK == dstK then
      if GoVal.sameType src dst then .ok src
      else
        match src, dst with
        | .slice _ none, .slice k _ => .ok (.slice k (some []))
        | .slice _ (some es), .slice k _ =>
            (weakCopyList es k).map (fun l => GoVal.slice k (some l))
        | _, _ =>
            .error ("cannot copy mismatched types got " ++ kindName srcK ++
              " exp " ++ kindName dstK)
    else if isTextUnmarshaler dst then
      match src with
      | .str s =>
          match durUnmarshalText s with
          | .ok v => .ok (.dur v)
          | .error _ => .ok dst
      | _ =>
          .error ("cannot unmarshal " ++ kindName srcK ++ " into " ++ kindName dstK)
    else if isNumericKind dstK then
      if isNumericKind srcK then .ok (convertNumeric src dst)
      else
        match src with
        | .str s =>
            if isIntKind dstK then
              match parseInt64 s with
              | some i => .ok (setIntVal dst i)
              | none =>
                  .error ("cannot convert string " ++ s ++ " into " ++ kindName dstK)
            else if isUintKind dstK then
              match parseUint64 s with
              | some n => .ok (setUintVal dst n)
              | none =>
                  .error ("cannot convert string " ++ s ++ " into " ++ kindName dstK)
            else if isFloatKind dstK then
              match parseFloat64 s with
              | some q => .ok (setFloatVal dst q)
              | none =>
                  .error ("cannot convert string " ++ s ++ " into " ++ kindName dstK)
            else
              .error ("cannot convert string into " ++ kindName dstK)
        | _ =>
            .error ("cannot convert " ++ kindName srcK ++ " into " ++ kindName dstK)
    else
      .error ("wrong kind " ++ kindName srcK ++ ", expected value of kind " ++
        kindName dstK)
termination_by structural src

/-- The per-index recursion of the mismatched-slice branch: each source
element is copied into a fresh zero value of the destination element type. -/
def weakCopyList (es : List GoVal) (elemK : Kind) : Except String (List GoVal) :=
  match es with
  | [] => .ok []
  | e :: rest =>
      match weakCopyValue e (zeroOfKind elemK) true with
      | .error err => .error ("failed to copy slice value: " ++ err)
      | .ok v => (weakCopyList rest elemK).map (fun l => v :: l)
termination_by structural es
end

end V2

/-! ## The old generation of the override package
(`services/config/override/override.go`, used by the config service). -/

namespace V1

/-- `getSectionName` (old generation).  Its comment promises that an absent
tag yields the Go field name and `false`, but `strings.Split` never returns
an empty list, so `len(parts) > 0` always holds and the function returns the
tag's first component (which is `""` for an untagged field) together with
`true`. -/
def getSectionName (f : FieldMeta) : String × Bool :=
  let parts := splitComma f.tagOverride
  if parts.length > 0 then (parts.headD "", true) else (f.fname, false)

/-- `weakCopyValue` (old generation): same-kind copy, weak numeric copy,
shared `wrong type` error for every other outcome.  A same-kind copy between
distinct types calls `reflect.Value.Set` with a mismatched type, which
panics; the old generation has no recover, so the panic is modelled as a
distinguished error. -/
def weakCopyValue (src dst : GoVal) (canSet : Bool) : Except String GoVal :=
  if !canSet then .error "not settable"
  else
    let srcK := src.kind
    let dstK := dst.kind
    if srcK == dstK then
      if GoVal.sameType src dst then .ok src
      else .error "panic: reflect.Set of value with wrong type"
    else
      let attempt : Option GoVal :=
        if isNumericKind dstK then
          if isNumericKind srcK then some (convertNumeric src dst)
          else
            match src with
            | .str s =>
                if isIntKind dstK then (parseInt64 s).map (setIntVal dst)
                else if isUintKind dstK then (parseUint64 s).map (setUintVal dst)
                else if isFloatKind dstK then (parseFloat64 s).map (setFloatVal dst)
                else none
            | _ => none
        else none
      match attempt with
      | some v => .ok v
      | none =>
          .error ("wrong type " ++ kindName srcK ++ ", expected value of type " ++
            kindName dstK)

/-- Mark an option name as used (`w.used[name] = true`). -/
def markUsed (used : List String) (name : String) : List String :=
  if used.contains name then used else name :: used

/-- The option level (depth 1) of the `overrideWalker` within the section it
cares about: a field whose option name is present in the override set is
weak-copied into, and the name is marked used. -/
def applyOptions (nameFn : FieldMeta → String) (set : List (String × GoVal)) :
    List (FieldMeta × GoVal) → List String →
    Except String (List (FieldMeta × GoVal) × List String)
  | [], used => .ok ([], used)
  | (m, v) :: rest, used =>
    let name := nameFn m
    match lookupKey set name with
    | some sv =>
        match weakCopyValue sv v m.canSet with
        | .error e => .error ("cannot set option " ++ name ++ ": " ++ e)
        | .ok nv =>
            (applyOptions nameFn set rest (markUsed used name)).map
              (fun r => ((m, nv) :: r.1, r.2))
    | none =>
        (applyOptions nameFn set rest used).map (fun r => ((m, v) :: r.1, r.2))

mutual
/-- The walk of a matched section's value: struct fields are the options;
pointers are dereferenced transparently by reflectwalk; the old walker has
no slice hooks, so the elements of a slice-valued section are each walked as
structs at the option depth.  Other values have no fields to visit. -/
def applySectionValue (nameFn : FieldMeta → String) (set : List (String × GoVal)) :
    GoVal → List String → Except String (GoVal × List String)
  | .strukt n fs, used =>
      (applyOptions nameFn set fs used).map (fun r => (.strukt n r.1, r.2))
  | .ptr (some v), used =>
      (applySectionValue nameFn set v used).map (fun r => (.ptr (some r.1), r.2))
  | .slice k (some es), used =>
      (applySectionElems nameFn set es used).map (fun r => (.slice k (some r.1), r.2))
  | v, used => .ok (v, used)
termination_by structural v => v

def applySectionElems (nameFn : FieldMeta → String) (set : List (String × GoVal)) :
    List GoVal → List String → Except String (List GoVal × List String)
  | [], used => .ok ([], used)
  | e :: es, used =>
      match applySectionValue nameFn set e used with
      | .error err => .error err
      | .ok (e2, used2) =>
          (applySectionElems nameFn set es used2).map (fun r => (e2 :: r.1, r.2))
termination_by structural es => es
end

/-- The section level (depth 0) of the `overrideWalker`: every top-level
field updates `currentSectionName` when `getSectionName` reports a tag (in
this generation it always does); the value of a field matching the requested
section is captured (after its options are applied — the capture is a
reference into the walked copy). -/
def walkTop (nameFn : FieldMeta → String) (sec : String)
    (set : List (String × GoVal)) :
    List (FieldMeta × GoVal) → String → Option GoVal → List String →
    Except String (List (FieldMeta × GoVal) × Option GoVal × List String)
  | [], _, ref, used => .ok ([], ref, used)
  | (m, v) :: rest, cur, ref, used =>
    let p := getSectionName m
    let cur2 := if p.2 then p.1 else cur
    if cur2 = sec then
      match applySectionValue nameFn set v used with
      | .error e => .error e
      | .ok (v2, used2) =>
          let ref2 := if p.2 && p.1 == sec then some v2 else ref
          (walkTop nameFn sec set rest cur2 ref2 used2).map
            (fun r => ((m, v2) :: r.1, r.2))
    else
      let ref2 := if p.2 && p.1 == sec then some v else ref
      (walkTop nameFn sec set rest cur2 ref2 used).map
        (fun r => ((m, v) :: r.1, r.2))

/-- `Section` (old generation): access to the resolved section value. -/
structure Section where
  value : GoVal

/-- `Overrider.Override` (old generation): reject an empty section name,
deep-copy the original, walk the copy applying the override set, fail on
unused (unknown) options, fail when no section matched, and otherwise return
the resolved copy. -/
def Override (nameFn : FieldMeta → String) (cfg : List (FieldMeta × GoVal))
    (sec : String) (overrides : List (String × GoVal)) :
    Except String Section :=
  if sec = "" then .error "section cannot be empty"
  else
    let copy := deepCopyFields cfg
    match walkTop nameFn sec overrides copy "" none [] with
    | .error e =>
        .error ("failed to apply changes to configuration object for section " ++
          sec ++ ": " ++ e)
    | .ok (_, ref, used) =>
        let unused := (overrides.filter (fun kv => !(used.contains kv.1))).map (·.1)
        if unused.isEmpty then
          match ref with
          | none => .error ("unknown section " ++ sec)
          | some v => .ok ⟨v⟩
        else .error ("unknown options in section " ++ sec)

/-- The `sectionWalker` (old generation): every top-level field for which
`getSectionName` reports a tag — in this generation all of them — lands in
the sections map under the reported name. -/
def sectionsMap (cfg : List (FieldMeta × GoVal)) : List (String × Section) :=
  cfg.foldl
    (fun acc f =>
      let p := getSectionName f.1
      if p.2 then setKey acc p.1 ⟨f.2⟩ else acc)
    []

/-- `Overrider.Sections` (old generation): the walker methods never fail, so
this is the collected map of the original, unmodified sections. -/
def Sections (cfg : List (FieldMeta × GoVal)) : List (String × Section) :=
  sectionsMap cfg

end V1

/-! ## The config service (`services/config/service.go`)

The service resolves overrides with the old-generation `Override` API and an
option-name function reading the `toml` tag (`NewService` installs
`override.TomlFieldName`).  The override store (an `overrideKV` over the
storage service, not part of the walked sources beyond its use here) is a
durable map from section id to the persisted option map; `Get` on an absent
id fails with `ErrNoOverrideExists`, which `applyUpdateAction` converts into
a fresh empty record. -/

namespace ConfigService

/-- The persisted override store: section id to persisted option map.  An
entry `(id, m)` models the stored record with `ID = id` and `Overrides = m`. -/
abbrev Store : Type := List (String × List (String × GoVal))

/-- The decoded body of a POST: `{"set": {...}, "delete": [...]}`. -/
structure UpdateAction where
  set : List (String × GoVal) := []
  del : List String := []

/-- `Service.applyUpdateAction`: load the record (or start from an empty one
when `Get` reports `ErrNoOverrideExists`), merge every `set` entry, delete
every `delete` key, persist the record, and return the merged option map.
The persistence write happens here, before the service attempts to resolve
the new configuration. -/
def applyUpdateAction (store : Store) (id : String) (ua : UpdateAction) :
    List (String × GoVal) × Store :=
  let o := (lookupKey store id).getD []
  let merged := ua.set.foldl (fun m kv => setKey m kv.1 kv.2) o
  let final := ua.del.foldl (fun m k => eraseKey m k) merged
  (final, setKey store id final)

/-- The handler's outcome: 204 with the `ConfigUpdate` emitted on the update
channel, or 400 with an error message. -/
inductive Response where
  | noContent (name : String) (newConfig : GoVal)
  | badRequest (msg : String)

/-- `Service.handleUpdateSection`: apply the update action to the stored
record (persisting it), then resolve the section through the Overrider; a
resolution failure is reported as 400 Bad Request, but the store keeps the
record written by `applyUpdateAction`. -/
def handleUpdateSection (cfg : List (FieldMeta × GoVal)) (store : Store)
    (sec : String) (ua : UpdateAction) : Response × Store :=
  if sec = "" then (.badRequest "must provide section name", store)
  else
    let r := applyUpdateAction store sec ua
    match V1.Override TomlFieldName cfg sec r.1 with
    | .error e => (.badRequest ("failed to update config:" ++ e), r.2)
    | .ok s => (.noContent sec s.value, r.2)

end ConfigService

/-! ## The configuration schema of the service tests (`service_test.go`) -/

def metaSectionA : FieldMeta :=
  { fname := "SectionA", tagToml := "section-a", tagOverride := "section-a" }

def metaSectionB : FieldMeta :=
  { fname := "SectionB", tagToml := "section-b", tagOverride := "section-b" }

def metaOption1 : FieldMeta := { fname := "Option1", tagToml := "option-1" }

def metaOption2 : FieldMeta := { fname := "Option2", tagToml := "option-2" }

def metaPassword : FieldMeta :=
  { fname := "Password", tagToml := "password", tagOverride := ",redact" }

/-- `SectionA` with its single string option. -/
def sectionAVal (o1 : String) : GoVal :=
  .strukt "SectionA" [(metaOption1, .str o1)]

/-- `SectionB` with a string option and a redacted password. -/
def sectionBVal (o2 pw : String) : GoVal :=
  .strukt "SectionB" [(metaOption2, .str o2), (metaPassword, .str pw)]

/-- The `TestConfig` value of the service tests: `section-a.option-1 = "o1"`,
`section-b.option-2 = "o2"`, empty password. -/
def testConfig : List (FieldMeta × GoVal) :=
  [(metaSectionA, sectionAVal "o1"), (metaSectionB, sectionBVal "o2" "")]

/-! ## Resolution with an empty override map

The walker applies no option and reports no unknown option, so `Override`
returns the last section whose tag matches the request — i.e. the original
section value. -/

/-- The section reference accumulated by the old walker at depth 0: the last
top-level field whose reported section name matches. -/
def walkRef (sec : String) (l : List (FieldMeta × GoVal)) (ref : Option GoVal) :
    Option GoVal :=
  l.foldl
    (fun acc f =>
      let p := V1.getSectionName f.1
      if p.2 && p.1 == sec then some f.2 else acc)
    ref

/-- The section value that an old-generation walk of `cfg` resolves for
`sec`: the last matching top-level field's value. -/
def findSectionV1 (cfg : List (FieldMeta × GoVal)) (sec : String) : Option GoVal :=
  walkRef sec cfg none

/-! ## The newer generation of the override package

The generation shipped alongside the service tests: requests are `Override`
values with element/create/delete support, sections may be lists of elements
keyed by a tagged element-key field, and the coercer handles textual
unmarshaling. -/

namespace V2

/-- `getSectionName` (newer generation): the tag's first component when it is
non-empty, otherwise the Go field name with `false`. -/
def getSectionName (f : FieldMeta) : String × Bool :=
  let parts := splitComma f.tagOverride
  if parts.headD "" ≠ "" then (parts.headD "", true) else (f.fname, false)

/-- `Override` (the request): what to override and how. -/
structure Override where
  Section : String := ""
  Element : String := ""
  Options : List (String × GoVal) := []
  Delete : Bool := false
  Create : Bool := false

/-- `Override.Validate`: the request's self-consistency rules, in source
order.  `some msg` models a non-nil error. -/
def Override.Validate (o : Override) : Option String :=
  if o.Section = "" then some "section cannot be empty"
  else if o.Delete && o.Element == "" then
    some "element cannot be empty if deleting an element"
  else if o.Create && o.Element != "" then
    some "element must be empty if creating an element, set the element key value via the options"
  else if o.Delete && !o.Options.isEmpty then
    some "cannot delete an element and provide options in the same override"
  else if o.Delete && o.Create then
    some "cannot create and delete an element in the same override"
  else none

/-- `Element`: a resolved element value (`none` models the nil interface of
an unresolved one) with its element id. -/
structure Element where
  value : Option GoVal := none
  element : String := ""

/-- `markUsed` models `w.used[name] = true`. -/
def markUsed (used : List String) (name : String) : List String :=
  if used.contains name then used else name :: used

/-- The struct fields of an element value, through pointer indirection
(`reflect.Indirect`); `none` when the value is not a struct. -/
def elemFields : GoVal → Option (String × List (FieldMeta × GoVal))
  | .strukt n fs => some (n, fs)
  | .ptr (some (.strukt n fs)) => some (n, fs)
  | _ => none

/-- Replace the `i`-th field's value of a struct (through pointer
indirection). -/
def setElemField (v : GoVal) (i : Nat) (nv : GoVal) : GoVal :=
  match v with
  | .strukt n fs =>
      .strukt n (fs.mapIdx (fun j f => if j = i then (f.1, nv) else f))
  | .ptr (some (.strukt n fs)) =>
      .ptr (some (.strukt n (fs.mapIdx (fun j f => if j = i then (f.1, nv) else f))))
  | w => w

/-- `findFieldByElementKey`: the field named like the element key — first by
Go field name (`FieldByName`), then by option name over the settable
fields. -/
def findFieldIdx (nameFn : FieldMeta → String) (elementKey : String)
    (fs : List (FieldMeta × GoVal)) : Option Nat :=
  match fs.findIdx? (fun f => f.1.fname == elementKey) with
  | some i => some i
  | none => fs.findIdx? (fun f => f.1.canSet && nameFn f.1 == elementKey)

/-- Read the element id of a list element: locate the element-key field and
return its string value; a missing field or a non-string kind is an error. -/
def readElementKey (nameFn : FieldMeta → String) (elementKey : String)
    (v : GoVal) : Except String String :=
  match elemFields v with
  | some (_, fs) =>
      match findFieldIdx nameFn elementKey fs with
      | some i =>
          match ((fs.get? i).map (·.2) : Option GoVal) with
          | some (GoVal.str s) => .ok s
          | some w =>
              .error ("element key field must be of type string, got " ++
                kindName w.kind)
          | none => .error ("could not find field with name " ++ elementKey)
      | none => .error ("could not find field with name " ++ elementKey)
  | none => .error ("could not find field with name " ++ elementKey)

mutual
/-- The zero value of a value's type (`reflect.New` on the element type when
the coercer or the walker allocates a fresh element). -/
def zeroLike : GoVal → GoVal
  | .str _ => .str ""
  | .vbool _ => .vbool false
  | .vint w _ => .vint w 0
  | .vuint w _ => .vuint w 0
  | .vfloat w _ => .vfloat w 0
  | .slice k _ => .slice k none
  | .array es => .array (zeroLikeList es)
  | .ptr _ => .ptr none
  | .strukt n fs => .strukt n (zeroLikeFields fs)
  | .dur _ => .dur 0
termination_by structural v => v

def zeroLikeList : List GoVal → List GoVal
  | [] => []
  | v :: vs => zeroLike v :: zeroLikeList vs
termination_by structural l => l

def zeroLikeFields : List (FieldMeta × GoVal) → List (FieldMeta × GoVal)
  | [] => []
  | (m, v) :: fs => (m, zeroLike v) :: zeroLikeFields fs
termination_by structural fs => fs
end

/-- The option level of the `overrideWalker` inside the active section and
element: each field whose option name appears in the request's options is
weak-copied into; overriding the element-key field itself is refused outside
of `create`. -/
def applyOptions (nameFn : FieldMeta → String) (o : Override) (elementKey : String) :
    List (FieldMeta × GoVal) → List String →
    Except String (List (FieldMeta × GoVal) × List String)
  | [], used => .ok ([], used)
  | (g, v) :: rest, used =>
    let name := nameFn g
    match lookupKey o.Options name with
    | some sv =>
        if !o.Create && name == elementKey then
          .error ("cannot override element key " ++ name)
        else
          match weakCopyValue sv v g.canSet with
          | .error e => .error ("cannot set option " ++ name ++ ": " ++ e)
          | .ok nv =>
              (applyOptions nameFn o elementKey rest (markUsed used name)).map
                (fun r => ((g, nv) :: r.1, r.2))
    | none =>
        (applyOptions nameFn o elementKey rest used).map
          (fun r => ((g, v) :: r.1, r.2))

/-- Walk one element's struct fields at the option level (the element is
known to be the active one). -/
def walkElemStruct (nameFn : FieldMeta → String) (o : Override)
    (elementKey : String) (v : GoVal) (used : List String) :
    Except String (GoVal × List String) :=
  match v with
  | .strukt n fs =>
      (applyOptions nameFn o elementKey fs used).map
        (fun r => (.strukt n r.1, r.2))
  | .ptr (some (.strukt n fs)) =>
      (applyOptions nameFn o elementKey fs used).map
        (fun r => (.ptr (some (.strukt n r.1)), r.2))
  | w => .ok (w, used)

/-- The state threaded through a slice walk. -/
structure SliceSt where
  used : List String
  curElement : String
  elemVal : Option GoVal

/-- `SliceElem` over a matched slice section (the guard
`currentSectionName == o.Section && o.Element != ""` holds): each element's
id is read through the element key; the matching element is spliced out on
delete (the element following a spliced one is not visited, as the source's
index skips it) or becomes the active element whose options are applied. -/
def walkSliceElems (nameFn : FieldMeta → String) (o : Override)
    (oElement elementKey : String) :
    List GoVal → SliceSt → Except String (List GoVal × SliceSt)
  | [], st => .ok ([], st)
  | e :: rest, st =>
    if elementKey = "" then
      .error "an element key must be specified via the override struct tag"
    else
      match readElementKey nameFn elementKey e with
      | .error msg => .error msg
      | .ok key =>
        let st1 := { st with curElement := key }
        if oElement == key then
          if o.Delete then
            match rest with
            | [] => .ok ([], st1)
            | b :: rest2 =>
                (walkSliceElems nameFn o oElement elementKey rest2 st1).map
                  (fun r => (b :: r.1, r.2))
          else
            match walkElemStruct nameFn o elementKey e st1.used with
            | .error msg => .error msg
            | .ok (e2, used2) =>
                let st2 : SliceSt := { st1 with used := used2, elemVal := some e2 }
                (walkSliceElems nameFn o oElement elementKey rest st2).map
                  (fun r => (e2 :: r.1, r.2))
        else
          (walkSliceElems nameFn o oElement elementKey rest st1).map
            (fun r => (e :: r.1, r.2))

/-- The `create` arm of `Slice`: allocate a fresh element of the slice's
element type (a pointer to a zero struct when the slice holds pointers; the
model recovers the element type from the first existing element and falls
back to an empty struct for an empty slice, whose static type it does not
carry), append it, and populate its element-key field from the options,
recording the new element id.  No modelled configuration type implements the
`Defaulter` capability, so `SetDefaults` is a no-op. -/
def createElem (nameFn : FieldMeta → String) (o : Override) (elementKey : String)
    (elems : List GoVal) :
    Except String (List GoVal × String × List String) :=
  let n0 : GoVal :=
    match elems.head? with
    | some (GoVal.ptr (some s)) => GoVal.ptr (some (zeroLike s))
    | some (GoVal.ptr none) => GoVal.ptr (some (GoVal.strukt "" []))
    | some e => zeroLike e
    | none => GoVal.strukt "" []
  if elementKey = "" then
    .error "cannot create new element, no element key found. An element key must be specified via the override struct tag"
  else
    match elemFields n0 with
    | some (_, fs) =>
        match findFieldIdx nameFn elementKey fs with
        | some i =>
            match ((fs.get? i).map (·.2) : Option GoVal) with
            | some (GoVal.str _) =>
                (match lookupKey o.Options elementKey with
                 | some sv =>
                     match sv with
                     | .str s =>
                         (match weakCopyValue sv (.str "") true with
                          | .error e =>
                              .error ("cannot set element key " ++ elementKey ++
                                " on new element: " ++ e)
                          | .ok nfv =>
                              .ok (elems ++ [setElemField n0 i nfv], s,
                                [elementKey]))
                     | _ => .error "type of element key must be a string"
                 | none =>
                     .error ("element key " ++ elementKey ++ " not present in options"))
            | some w =>
                .error ("element key field must be of type string, got " ++
                  kindName w.kind)
            | none =>
                .error ("could not find field with the name of the element key " ++
                  elementKey)
        | none =>
            .error ("could not find field with the name of the element key " ++
              elementKey)
    | none =>
        .error ("could not find field with the name of the element key " ++
          elementKey)

/-- The walker state at the section level. -/
structure TopSt where
  oElement : String
  used : List String := []
  elemVal : Option GoVal := none
  curSection : String := ""
  curElement : String := ""
  elementKey : String := ""

/-- Walk the value of one top-level field at depth 1.  A field whose section
is not the target is walked without any effect (every option and slice hook
is guarded by the current section name), which the model short-circuits. -/
def processSectionField (nameFn : FieldMeta → String) (o : Override)
    (v : GoVal) (st : TopSt) : Except String (GoVal × TopSt) :=
  if st.curSection == o.Section then
    match v with
    | GoVal.strukt n fs =>
        if st.curElement == st.oElement then
          (applyOptions nameFn o st.elementKey fs st.used).map
            (fun r =>
              (.strukt n r.1,
               { st with
                 used := r.2,
                 elemVal := if st.elemVal.isSome then some (.strukt n r.1) else st.elemVal }))
        else .ok (v, st)
    | GoVal.ptr (some (GoVal.strukt n fs)) =>
        if st.curElement == st.oElement then
          (applyOptions nameFn o st.elementKey fs st.used).map
            (fun r =>
              (.ptr (some (.strukt n r.1)),
               { st with
                 used := r.2,
                 elemVal :=
                   if st.elemVal.isSome then some (.ptr (some (.strukt n r.1)))
                   else st.elemVal }))
        else .ok (v, st)
    | GoVal.slice k es0 =>
        -- `Slice` hook
        if o.Delete then
          -- the section value reference is explicitly cleared
          let es := es0.getD []
          match walkSliceElems nameFn o o.Element st.elementKey es
              { used := st.used, curElement := st.curElement, elemVal := none } with
          | .error msg => .error msg
          | .ok (es2, sst) =>
              .ok (.slice k (some es2),
                { st with
                  used := sst.used,
                  curElement := sst.curElement,
                  elemVal := sst.elemVal })
        else if o.Create then
          match createElem nameFn o st.elementKey (es0.getD []) with
          | .error msg => .error msg
          | .ok (es1, newElement, usedAdd) =>
              let used1 := usedAdd.foldl markUsed st.used
              match walkSliceElems nameFn o newElement st.elementKey es1
                  { used := used1, curElement := st.curElement,
                    elemVal := st.elemVal } with
              | .error msg => .error msg
              | .ok (es2, sst) =>
                  .ok (.slice k (some es2),
                    { st with
                      oElement := newElement,
                      used := sst.used,
                      curElement := sst.curElement,
                      elemVal :=
                        (match sst.elemVal with
                         | some e => some e
                         | none =>
                             if st.elemVal.isSome then some (GoVal.slice k (some es2))
                             else st.elemVal) })
        else
          if st.oElement == "" then
            -- `SliceElem` only acts when the request names an element
            .ok (.slice k es0,
              { st with
                elemVal :=
                  if st.elemVal.isSome then some (.slice k es0) else st.elemVal })
          else
            match walkSliceElems nameFn o st.oElement st.elementKey (es0.getD [])
                { used := st.used, curElement := st.curElement, elemVal := none } with
            | .error msg => .error msg
            | .ok (es2, sst) =>
                .ok (.slice k (some es2),
                  { st with
                    used := sst.used,
                    curElement := sst.curElement,
                    elemVal :=
                      (match sst.elemVal with
                       | some e => some e
                       | none =>
                           if st.elemVal.isSome then some (GoVal.slice k (some es2))
                           else st.elemVal) })
    | w => .ok (w, st)
  else .ok (v, st)

/-- The section level of the newer `overrideWalker`: tagged fields update the
current section name (untagged fields reset it); the target section's value
and element key are captured, and the field's value is walked at depth 1. -/
def walkTop (nameFn : FieldMeta → String) (o : Override) :
    List (FieldMeta × GoVal) → TopSt →
    Except String (List (FieldMeta × GoVal) × TopSt)
  | [], st => .ok ([], st)
  | (m, v) :: rest, st =>
    let p := getSectionName m
    let st1 :=
      if p.2 then
        if o.Section == p.1 then
          { st with
            curSection := p.1,
            elemVal := some v,
            elementKey := getElementKey m }
        else { st with curSection := p.1 }
      else { st with curSection := "" }
    match processSectionField nameFn o v st1 with
    | .error e => .error e
    | .ok (v2, st2) =>
        (walkTop nameFn o rest st2).map (fun r => ((m, v2) :: r.1, r.2))

/-- `Overrider.applyOverride` (newer generation): validate the request, walk
the object applying the updates, fail on unknown options, fail on an unknown
section unless the request is a delete, run the `Validate` hook of the
resolved element (no modelled configuration type implements the `Validater`
capability, so the hook never fires), and return the resolved element. -/
def applyOverride (nameFn : FieldMeta → String) (tree : List (FieldMeta × GoVal))
    (o : Override) : Except String (Element × List (FieldMeta × GoVal)) :=
  match o.Validate with
  | some msg => .error ("invalid override: " ++ msg)
  | none =>
    match walkTop nameFn o tree { oElement := o.Element } with
    | .error e =>
        .error ("failed to apply changes to configuration object for section " ++
          o.Section ++ ": " ++ e)
    | .ok (tree2, st) =>
        let unused := (o.Options.filter (fun kv => !(st.used.contains kv.1))).map (·.1)
        if unused.isEmpty then
          match st.elemVal with
          | none =>
              if !o.Delete then .error ("unknown section " ++ o.Section)
              else .ok ({ value := none, element := "" }, tree2)
          | some v => .ok ({ value := some v, element := st.oElement }, tree2)
        else .error ("unknown options in section " ++ o.Section)

/-- `Overrider` (newer generation): holds the original configuration, which
only ever serves as the source of deep copies. -/
structure Overrider where
  original : List (FieldMeta × GoVal)

/-- `Overrider.Override`: deep-copy the original, apply the override to the
copy, return the resolved element; the copy itself is discarded. -/
def Overrider.Override (c : Overrider) (nameFn : FieldMeta → String)
    (o : V2.Override) : Except String Element :=
  (applyOverride nameFn (deepCopyFields c.original) o).map (·.1)

/-- `Overrider.OverrideAll`: apply every override to a single deep copy of
the original, then collect all sections from the mutated copy. -/
def OverrideAllGo (nameFn : FieldMeta → String) :
    List Override → List (FieldMeta × GoVal) →
    Except String (List (FieldMeta × GoVal))
  | [], tree => .ok tree
  | o :: os, tree =>
    match applyOverride nameFn tree o with
    | .error e =>
        .error ("failed to override configuration section/element " ++
          o.Section ++ "/" ++ o.Element ++ ": " ++ e)
    | .ok (_, tree2) => OverrideAllGo nameFn os tree2

/-- The newer `sectionWalker`, used by `OverrideAll`: a struct-valued tagged
field is a singleton section; the elements of a slice-valued tagged field
are collected with their element ids. -/
def sectionsWalk (nameFn : FieldMeta → String) :
    List (FieldMeta × GoVal) → List (String × List Element) →
    Except String (List (String × List Element))
  | [], acc => .ok acc
  | (m, v) :: rest, acc =>
    let p := getSectionName m
    if p.2 then
      match v with
      | .strukt _ _ =>
          sectionsWalk nameFn rest (setKey acc p.1 [{ value := some v }])
      | .ptr (some (.strukt _ _)) =>
          sectionsWalk nameFn rest (setKey acc p.1 [{ value := some v }])
      | .slice _ (some es) =>
          let ek := getElementKey m
          match es.foldlM
              (fun (l : List Element) e =>
                (readElementKey nameFn ek e).map
                  (fun id => l ++ [{ value := some e, element := id }]))
              ((lookupKey acc p.1).getD []) with
          | .error e => .error e
          | .ok l => sectionsWalk nameFn rest (setKey acc p.1 l)
      | _ => sectionsWalk nameFn rest acc
    else sectionsWalk nameFn rest acc

def Overrider.OverrideAll (c : Overrider) (nameFn : FieldMeta → String)
    (os : List V2.Override) : Except String (List (String × List Element)) :=
  match OverrideAllGo nameFn os (deepCopyFields c.original) with
  | .error e => .error e
  | .ok tree => sectionsWalk nameFn tree []

end V2

/-! ## C1: the original tree is never modified -/

/-- The calls a client can make against an `Overrider` (both generations'
`Override` and the newer `OverrideAll`). -/
inductive Call where
  | callV1 (sec : String) (overrides : List (String × GoVal))
  | callV2 (o : V2.Override)
  | callAll (os : List V2.Override)

/-- The result a call returns to the caller. -/
inductive CallResult where
  | v1 : Except String V1.Section → CallResult
  | v2 : Except String V2.Element → CallResult
  | vall : Except String (List (String × List V2.Element)) → CallResult

/-- Execute one call against the held configuration: every entry point first
deep-copies the original and mutates only the copy, so the overrider state
that emerges is the one that went in. -/
def runCall (nameFn : FieldMeta → String) (c : V2.Overrider) (call : Call) :
    CallResult × V2.Overrider :=
  match call with
  | .callV1 sec ov => (.v1 (V1.Override nameFn c.original sec ov), c)
  | .callV2 o => (.v2 (c.Override nameFn o), c)
  | .callAll os => (.vall (c.OverrideAll nameFn os), c)

/-- A sequence of calls, threading the overrider state. -/
def runCalls (nameFn : FieldMeta → String) (c : V2.Overrider)
    (calls : List Call) : V2.Overrider :=
  calls.foldl (fun st call => (runCall nameFn st call).2) c

/-! ## Notification adapters (`telegram`, `slack`): the `Update` hook

Each adapter stores its configuration fields behind a readers-writer lock;
`Update` validates that it received exactly one new config value of the
adapter's own `Config` type, and only then replaces the stored fields.  The
lock is a concurrency artefact with no bearing on the functional contract;
the model passes the state explicitly. -/

namespace Telegram

/-- `telegram.Config` (the fields read by `NewService` and `Update`). -/
structure Config where
  ChatId : String := ""
  ParseMode : String := ""
  DisableWebPagePreview : Bool := false
  DisableNotification : Bool := false
  URL : String := ""
  Token : String := ""
  Global : Bool := false
  StateChangesOnly : Bool := false

/-- The mutable fields of `telegram.Service`. -/
structure Service where
  chatId : String
  parseMode : String
  url : String
  disableWebPagePreview : Bool
  disableNotification : Bool
  global : Bool
  stateChangesOnly : Bool

def NewService (c : Config) : Service :=
  { chatId := c.ChatId
    parseMode := c.ParseMode
    url := c.URL ++ c.Token ++ "/sendMessage"
    disableWebPagePreview := c.DisableWebPagePreview
    disableNotification := c.DisableNotification
    global := c.Global
    stateChangesOnly := c.StateChangesOnly }

end Telegram

namespace Slack

/-- `slack.Config` (the fields read by `NewService` and `Update`). -/
structure Config where
  Channel : String := ""
  URL : String := ""
  Global : Bool := false
  StateChangesOnly : Bool := false

/-- The mutable fields of `slack.Service`. -/
structure Service where
  channel : String
  url : String
  global : Bool
  stateChangesOnly : Bool

def NewService (c : Config) : Service :=
  { channel := c.Channel
    url := c.URL
    global := c.Global
    stateChangesOnly := c.StateChangesOnly }

end Slack

/-- The dynamic (`interface{}`) values an adapter's `Update` can receive over
the update channel. -/
inductive Dyn where
  | telegram : Telegram.Config → Dyn
  | slack : Slack.Config → Dyn
  | other : String → Dyn

/-- `telegram.Service.Update`: reject an argument list that is not a single
element, reject a single element that is not a `telegram.Config`, and
otherwise replace the stored fields. -/
def Telegram.Service.Update (s : Telegram.Service) (newConfig : List Dyn) :
    Option String × Telegram.Service :=
  if newConfig.length ≠ 1 then
    (some ("expected only one new config object, got " ++ toString newConfig.length), s)
  else
    match newConfig.head? with
    | some (Dyn.telegram c) =>
        (none,
         { chatId := c.ChatId
           parseMode := c.ParseMode
           url := c.URL ++ c.Token ++ "/sendMessage"
           disableWebPagePreview := c.DisableWebPagePreview
           disableNotification := c.DisableNotification
           global := c.Global
           stateChangesOnly := c.StateChangesOnly })
    | _ => (some "expected config object to be of type telegram.Config", s)

/-- `slack.Service.Update`: same contract for the slack adapter. -/
def Slack.Service.Update (s : Slack.Service) (newConfig : List Dyn) :
    Option String × Slack.Service :=
  if newConfig.length ≠ 1 then
    (some ("expected only one new config object, got " ++ toString newConfig.length), s)
  else
    match newConfig.head? with
    | some (Dyn.slack c) =>
        (none,
         { channel := c.Channel
           url := c.URL
           global := c.Global
           stateChangesOnly := c.StateChangesOnly })
    | _ => (some "expected config object to be of type slack.Config", s)

/-- A demo telegram service state used by the witnesses. -/
def tgDemo : Telegram.Service :=
  Telegram.NewService { ChatId := "chat", URL := "https://api", Token := "tok" }

/-- A demo slack service state used by the witnesses. -/
def slackDemo : Slack.Service :=
  Slack.NewService { Channel := "#ops", URL := "https://hooks" }

/-! ## Inputs for the numeric-coercion claim -/

/-- One source value of 42 for every numeric kind, plus the string form. -/
def numericSources42 : List GoVal :=
  [.vint .i 42, .vint .i8 42, .vint .i16 42, .vint .i32 42, .vint .i64 42,
   .vuint .u 42, .vuint .u8 42, .vuint .u16 42, .vuint .u32 42, .vuint .u64 42,
   .vfloat .f32 42, .vfloat .f64 42, .str "42"]

/-- A zero destination of every numeric kind. -/
def numericZeros : List GoVal :=
  [.vint .i 0, .vint .i8 0, .vint .i16 0, .vint .i32 0, .vint .i64 0,
   .vuint .u 0, .vuint .u8 0, .vuint .u16 0, .vuint .u32 0, .vuint .u64 0,
   .vfloat .f32 0, .vfloat .f64 0]

/-- The kind-typed 42 of a numeric destination. -/
def fortyTwoLike : GoVal → GoVal
  | .vint w _ => .vint w 42
  | .vuint w _ => .vuint w 42
  | .vfloat w _ => .vfloat w 42
  | v => v

/-! ## Inputs for the untagged-section claim -/

/-- An untagged top-level field, as `IgnoredSection` in the package's doc
example. -/
def metaIgnored : FieldMeta := { fname := "IgnoredSection" }

/-- A configuration with a tagged section and an untagged field. -/
def configWithUntagged : List (FieldMeta × GoVal) :=
  [(metaSectionA, sectionAVal "o1"), (metaIgnored, .strukt "MyOtherSectionConfig" [])]

/-! The option names a configuration schema declares on a section: every
field tag reachable through the structs, pointers and slices of the
section's value, collected with the same walk `applyOptions` performs. -/


mutual
def optionNames (nameFn : FieldMeta → String) : GoVal → List String
  | .strukt _ fs => fs.map (fun g => nameFn g.1)
  | .ptr (some v) => optionNames nameFn v
  | .slice _ (some es) => optionNamesElems nameFn es
  | _ => []
termination_by structural v => v

def optionNamesElems (nameFn : FieldMeta → String) : List GoVal → List String
  | [] => []
  | e :: es => optionNames nameFn e ++ optionNamesElems nameFn es
termination_by structural es => es
end

def declaredOptions (nameFn : FieldMeta → String)
    (cfg : List (FieldMeta × GoVal)) (s : String) : List String :=
  ((cfg.filter (fun f => (V1.getSectionName f.1).1 == s)).map
    (fun f => optionNames nameFn f.2)).flatten


/-! ## Theorems -/

mutual
theorem deepCopy_eq : ∀ v, deepCopy v = v
  | .str _ => by simp [deepCopy]
  | .vbool _ => by simp [deepCopy]
  | .vint _ _ => by simp [deepCopy]
  | .vuint _ _ => by simp [deepCopy]
  | .vfloat _ _ => by simp [deepCopy]
  | .slice _ es => by
      cases es with
      | none => simp [deepCopy]
      | some l => simp [deepCopy, deepCopyList_eq l]
  | .array es => by simp [deepCopy, deepCopyList_eq es]
  | .ptr v => by
      cases v with
      | none => simp [deepCopy]
      | some x => simp [deepCopy, deepCopy_eq x]
  | .strukt n fs => by simp [deepCopy, deepCopyFields_eq fs]
  | .dur _ => by simp [deepCopy]

theorem deepCopyList_eq : ∀ l : List GoVal, deepCopyList l = l
  | [] => by simp [deepCopyList]
  | v :: vs => by simp [deepCopyList, deepCopy_eq v, deepCopyList_eq vs]

theorem deepCopyFields_eq : ∀ fs : List (FieldMeta × GoVal), deepCopyFields fs = fs
  | [] => by simp [deepCopyFields]
  | (m, v) :: fs => by simp [deepCopyFields, deepCopy_eq v, deepCopyFields_eq fs]
end

theorem lookupKey_setKey_self {α : Type} (l : List (String × α)) (n : String) (v : α) :
    lookupKey (setKey l n v) n = some v := by
  induction l with
  | nil => simp [setKey, lookupKey]
  | cons h t ih =>
    obtain ⟨k, w⟩ := h
    by_cases hk : k = n
    · subst hk
      simp [setKey, lookupKey]
    · simp [setKey, lookupKey, hk, ih]

theorem lookupKey_setKey_ne {α : Type} (l : List (String × α)) (n m : String) (v : α)
    (h : m ≠ n) : lookupKey (setKey l n v) m = lookupKey l m := by
  induction l with
  | nil => simp [setKey, lookupKey, Ne.symm h]
  | cons hd t ih =>
    obtain ⟨k, w⟩ := hd
    by_cases hk : k = n
    · subst hk
      simp [setKey, lookupKey, Ne.symm h]
    · simp [setKey, lookupKey, hk, ih]

theorem lookupKey_eraseKey_self {α : Type} (l : List (String × α)) (n : String) :
    lookupKey (eraseKey l n) n = none := by
  induction l with
  | nil => simp [eraseKey, lookupKey]
  | cons hd t ih =>
    obtain ⟨k, w⟩ := hd
    by_cases hk : k = n
    · subst hk
      simp [eraseKey, ih]
    · simp [eraseKey, lookupKey, hk, ih]

theorem lookupKey_eraseKey_ne {α : Type} (l : List (String × α)) (n m : String)
    (h : m ≠ n) : lookupKey (eraseKey l n) m = lookupKey l m := by
  induction l with
  | nil => simp [eraseKey]
  | cons hd t ih =>
    obtain ⟨k, w⟩ := hd
    by_cases hk : k = n
    · subst hk
      simp [eraseKey, lookupKey, Ne.symm h, ih]
    · simp [eraseKey, lookupKey, hk, ih]

theorem applyOptions_nil (nameFn : FieldMeta → String) :
    ∀ (fs : List (FieldMeta × GoVal)) (used : List String),
      V1.applyOptions nameFn [] fs used = .ok (fs, used) := by
  intro fs
  induction fs with
  | nil => intro used; simp [V1.applyOptions]
  | cons f rest ih =>
    intro used
    obtain ⟨m, v⟩ := f
    simp [V1.applyOptions, lookupKey, ih, Except.map]

mutual
theorem applySectionValue_nil (nameFn : FieldMeta → String) :
    ∀ (v : GoVal) (used : List String),
      V1.applySectionValue nameFn [] v used = .ok (v, used)
  | .str _, used => by simp [V1.applySectionValue]
  | .vbool _, used => by simp [V1.applySectionValue]
  | .vint _ _, used => by simp [V1.applySectionValue]
  | .vuint _ _, used => by simp [V1.applySectionValue]
  | .vfloat _ _, used => by simp [V1.applySectionValue]
  | .slice _ none, used => by simp [V1.applySectionValue]
  | .slice _ (some es), used => by
      simp [V1.applySectionValue, applySectionElems_nil nameFn es used, Except.map]
  | .array _, used => by simp [V1.applySectionValue]
  | .ptr none, used => by simp [V1.applySectionValue]
  | .ptr (some v), used => by
      simp [V1.applySectionValue, applySectionValue_nil nameFn v used, Except.map]
  | .strukt n fs, used => by
      simp [V1.applySectionValue, applyOptions_nil nameFn fs used, Except.map]
  | .dur _, used => by simp [V1.applySectionValue]

theorem applySectionElems_nil (nameFn : FieldMeta → String) :
    ∀ (es : List GoVal) (used : List String),
      V1.applySectionElems nameFn [] es used = .ok (es, used)
  | [], used => by simp [V1.applySectionElems]
  | e :: es, used => by
      simp [V1.applySectionElems, applySectionValue_nil nameFn e used,
        applySectionElems_nil nameFn es used, Except.map]
end

theorem walkTop_nil (nameFn : FieldMeta → String) (sec : String) :
    ∀ (l : List (FieldMeta × GoVal)) (cur : String) (ref : Option GoVal)
      (used : List String),
      V1.walkTop nameFn sec [] l cur ref used = .ok (l, walkRef sec l ref, used) := by
  intro l
  induction l with
  | nil => intro cur ref used; simp [V1.walkTop, walkRef]
  | cons f rest ih =>
    intro cur ref used
    obtain ⟨m, v⟩ := f
    by_cases hc : (if (V1.getSectionName m).2 then (V1.getSectionName m).1 else cur) = sec
    · simp [V1.walkTop, hc, applySectionValue_nil nameFn v used, ih, Except.map,
        walkRef]
    · simp [V1.walkTop, hc, ih, Except.map, walkRef]

/-- `Override` with an empty override map returns the original value of the
requested section (and still fails on an unknown section). -/
theorem Override_nil (nameFn : FieldMeta → String) (cfg : List (FieldMeta × GoVal))
    (sec : String) (hs : sec ≠ "") :
    V1.Override nameFn cfg sec [] =
      (match findSectionV1 cfg sec with
       | some v => .ok ⟨v⟩
       | none => .error ("unknown section " ++ sec)) := by
  simp only [V1.Override, hs, if_false, deepCopyFields_eq,
    walkTop_nil nameFn sec cfg "" none [], findSectionV1]
  simp [List.filter]
  cases walkRef sec cfg none <;> simp

theorem validate_iff (o : V2.Override) :
    (V2.Override.Validate o).isSome = true ↔
      (o.Section = "" ∨ (o.Delete = true ∧ o.Element = "") ∨
       (o.Delete = true ∧ o.Options ≠ []) ∨ (o.Delete = true ∧ o.Create = true) ∨
       (o.Create = true ∧ o.Element ≠ "")) := by
  simp only [V2.Override.Validate]
  split_ifs with h1 h2 h3 h4 h5 <;> simp_all [List.isEmpty_iff]

/-- C6: `Override(o)` rejects every request violating the self-consistency
rules before any mutation.  The validation error is raised exactly when the
section is empty, a delete names no element, a delete carries options, a
delete is combined with a create, or a create names an element; and whenever
validation reports an error, `applyOverride` fails with it without touching
the walked object. -/
theorem claim_C6_validate_rejects :
    (∀ o : V2.Override,
        (V2.Override.Validate o).isSome = true ↔
          (o.Section = "" ∨ (o.Delete = true ∧ o.Element = "") ∨
           (o.Delete = true ∧ o.Options ≠ []) ∨
           (o.Delete = true ∧ o.Create = true) ∨
           (o.Create = true ∧ o.Element ≠ ""))) ∧
    (∀ (nameFn : FieldMeta → String) (tree : List (FieldMeta × GoVal))
        (o : V2.Override) (msg : String),
        V2.Override.Validate o = some msg →
        V2.applyOverride nameFn tree o = .error ("invalid override: " ++ msg)) := by
  constructor
  · exact validate_iff
  · intro nameFn tree o msg h
    simp [V2.applyOverride, h]

theorem claim_C6_witness :
    V2.applyOverride TomlFieldName testConfig { Section := "" } =
      .error "invalid override: section cannot be empty" :=
  claim_C6_validate_rejects.2 TomlFieldName testConfig { Section := "" } _ rfl

theorem walkTop_no_match (nameFn : FieldMeta → String) (o : V2.Override)
    (hs : o.Section ≠ "") :
    ∀ (tree : List (FieldMeta × GoVal)) (st : V2.TopSt),
      (∀ f ∈ tree, (V2.getSectionName f.1).2 = true →
        (V2.getSectionName f.1).1 ≠ o.Section) →
      st.curSection ≠ o.Section →
      ∃ st2, V2.walkTop nameFn o tree st = .ok (tree, st2) ∧
        st2.elemVal = st.elemVal ∧ st2.used = st.used := by
  intro tree
  induction tree with
  | nil =>
    intro st hm hcur
    exact ⟨st, by simp [V2.walkTop], rfl, rfl⟩
  | cons f rest ih =>
    intro st hm hcur
    obtain ⟨m, v⟩ := f
    by_cases hp : (V2.getSectionName m).2 = true
    · have hne : (V2.getSectionName m).1 ≠ o.Section := hm (m, v) (by simp) hp
      obtain ⟨st2, hw, he, hu⟩ :=
        ih { st with curSection := (V2.getSectionName m).1 }
          (fun g hg => hm g (by simp [hg])) (by simpa using hne)
      refine ⟨st2, ?_, he, hu⟩
      simp [V2.walkTop, hp, Ne.symm hne, V2.processSectionField, hne, hw,
        Except.map]
    · have hp2 : (V2.getSectionName m).2 = false := by simpa using hp
      obtain ⟨st2, hw, he, hu⟩ :=
        ih { st with curSection := "" }
          (fun g hg => hm g (by simp [hg])) (by simpa using Ne.symm hs)
      refine ⟨st2, ?_, he, hu⟩
      simp [V2.walkTop, hp2, V2.processSectionField, Ne.symm hs, hw, Except.map]

/-- C10 (amended): for every request that passes the self-consistency
validation with `Delete` set, whose section name matches no declared section
of the tree, `Override` returns no error: the unknown-section check is
skipped when `Delete` is set, and the zero `Element` is returned. -/
theorem claim_C10_delete_unknown_section (nameFn : FieldMeta → String)
    (tree : List (FieldMeta × GoVal)) (o : V2.Override)
    (hd : o.Delete = true) (he : o.Element ≠ "") (hs : o.Section ≠ "")
    (hc : o.Create = false) (hopt : o.Options = [])
    (hmatch : ∀ f ∈ tree, (V2.getSectionName f.1).2 = true →
      (V2.getSectionName f.1).1 ≠ o.Section) :
    V2.Overrider.Override ⟨tree⟩ nameFn o = .ok { value := none, element := "" } := by
  have hv : V2.Override.Validate o = none := by
    simp [V2.Override.Validate, hs, he, hd, hc, hopt]
  obtain ⟨st2, hw, hev, hus⟩ :=
    walkTop_no_match nameFn o hs tree { oElement := o.Element }
      hmatch (by simpa using Ne.symm hs)
  simp [V2.Overrider.Override, V2.applyOverride, hv, deepCopyFields_eq, hw, hev,
    hus, hopt, hd, Except.map]

theorem claim_C10_witness :
    V2.Overrider.Override ⟨testConfig⟩ TomlFieldName
        { Section := "section-z", Element := "x", Delete := true } =
      .ok { value := none, element := "" } :=
  claim_C10_delete_unknown_section TomlFieldName testConfig
    { Section := "section-z", Element := "x", Delete := true }
    rfl (by decide) (by decide) rfl rfl (by decide)

/-- C10, the claim as stated: it promises that every `Delete` request against
an undeclared section succeeds, but a delete naming no element is rejected by
the request validation even though its section matches no declared section. -/
theorem claim_C10_counterexample :
    V2.Overrider.Override ⟨[]⟩ TomlFieldName
        { Section := "absent-section", Delete := true } =
      .error "invalid override: element cannot be empty if deleting an element" := rfl

/-- C1: for every sequence of `Override` / `OverrideAll` calls, whatever
their arguments and outcomes, the configuration tree held by the Overrider
stays equal to the value supplied at construction: every call mutates only
the fresh deep copy it makes. -/
theorem claim_C1_original_preserved (nameFn : FieldMeta → String)
    (cfg : List (FieldMeta × GoVal)) (calls : List Call) :
    (runCalls nameFn ⟨cfg⟩ calls).original = cfg := by
  suffices h : ∀ c : V2.Overrider, (runCalls nameFn c calls).original = c.original by
    exact h ⟨cfg⟩
  induction calls with
  | nil => intro c; rfl
  | cons hd tl ih =>
    intro c
    have h2 : (runCall nameFn c hd).2 = c := by cases hd <;> rfl
    show (runCalls nameFn (runCall nameFn c hd).2 tl).original = c.original
    rw [h2]
    exact ih c

/-- C3: for a string source and a `TextUnmarshaler` destination the coercer
does delegate to `UnmarshalText` (third conjunct), but when `UnmarshalText`
returns an error (first conjunct) the source discards the result of
`errors.Wrap` instead of returning it, so the copy reports success with the
destination unchanged (second conjunct) — the claim expects the error to be
returned by the enclosing `Override` call. -/
theorem claim_C3_unmarshal_error_swallowed :
    V2.durUnmarshalText "abc" = .error "invalid duration string abc" ∧
    V2.weakCopyValue (.str "abc") (.dur 5) true = .ok (.dur 5) ∧
    V2.weakCopyValue (.str "120") (.dur 5) true = .ok (.dur 120) :=
  ⟨rfl, rfl, rfl⟩

/-- C4: an untagged top-level field is not ignored by the old generation of
the engine: `getSectionName` reports `("", true)` for it (its own comment
promises the Go field name and `false`, but `len(parts) > 0` always holds),
so `Sections()` exposes the untagged field's value under the empty section
name. -/
theorem claim_C4_untagged_section_leaks :
    V1.getSectionName metaIgnored = ("", true) ∧
    lookupKey (V1.Sections configWithUntagged) "" =
      some ⟨.strukt "MyOtherSectionConfig" []⟩ :=
  ⟨rfl, rfl⟩

/-- C5: assigning the value 42 from a source of every signed width, unsigned
width, float width, and from the string form, into a zero destination of
every numeric kind succeeds in both generations of the coercer and produces
the destination-kind-typed 42. -/
theorem claim_C5_numeric_closure :
    ∀ src ∈ numericSources42, ∀ dst ∈ numericZeros,
      V2.weakCopyValue src dst true = .ok (fortyTwoLike dst) ∧
      V1.weakCopyValue src dst true = .ok (fortyTwoLike dst) := by
  intro src hs dst hd
  fin_cases hs <;> fin_cases hd <;> exact ⟨rfl, rfl⟩

theorem claim_C5_witness :
    V2.weakCopyValue (.vint .i 42) (.vint .i 0) true =
        .ok (fortyTwoLike (.vint .i 0)) ∧
    V1.weakCopyValue (.vint .i 42) (.vint .i 0) true =
        .ok (fortyTwoLike (.vint .i 0)) :=
  claim_C5_numeric_closure (.vint .i 42) (List.Mem.head _)
    (.vint .i 0) (List.Mem.head _)

theorem lookup_redactFold_notin (nameFn : FieldMeta → String) :
    ∀ (fs : List (FieldMeta × GoVal)) (acc : List (String × GoVal)) (name : String),
      name ∉ fs.map (fun g => nameFn g.1) →
      lookupKey (redactFieldsFold nameFn fs acc) name = lookupKey acc name := by
  intro fs
  induction fs with
  | nil => intro acc name h; simp [redactFieldsFold]
  | cons g rest ih =>
    intro acc name h
    obtain ⟨m, v⟩ := g
    simp only [List.map_cons, List.mem_cons] at h
    push_neg at h
    rw [redactFieldsFold, ih _ _ h.2, lookupKey_setKey_ne _ _ _ _ h.1]

theorem lookup_redactFieldsFold (nameFn : FieldMeta → String) :
    ∀ (fs : List (FieldMeta × GoVal)) (acc : List (String × GoVal))
      (f : FieldMeta × GoVal), f ∈ fs →
      (fs.map (fun g => nameFn g.1)).Nodup →
      lookupKey (redactFieldsFold nameFn fs acc) (nameFn f.1) =
        some (getRedactedValue f.1 f.2) := by
  intro fs
  induction fs with
  | nil => intro acc f hf; simp at hf
  | cons g rest ih =>
    intro acc f hf hnd
    obtain ⟨m, v⟩ := g
    simp only [List.map_cons, List.nodup_cons] at hnd
    rcases List.mem_cons.1 hf with heq | hmem
    · subst heq
      simp only [redactFieldsFold]
      rw [lookup_redactFold_notin nameFn rest _ _ hnd.1, lookupKey_setKey_self]
    · exact ih _ f hmem hnd.2

/-- C8: in the redacted map of an element, every field appears under its
option name; a field tagged `redact` appears as the boolean "is the value
structurally non-zero" (`isZero` checks nil for reference kinds, elements
for arrays, settable fields recursively for structs, and zero-value
equality otherwise) and its actual value is replaced by that boolean, while
every untagged field appears with its value unchanged. -/
theorem claim_C8_redaction (nameFn : FieldMeta → String) (tyName : String)
    (fs : List (FieldMeta × GoVal)) (f : FieldMeta × GoVal)
    (hf : f ∈ fs) (hnd : (fs.map (fun g => nameFn g.1)).Nodup) :
    lookupKey (Redacted nameFn (.strukt tyName fs)) (nameFn f.1) =
      some (if isRedacted f.1 then .vbool (!isZero f.2) else f.2) := by
  have h := lookup_redactFieldsFold nameFn fs [] f hf hnd
  simpa [Redacted, redactOptions, getRedactedValue] using h

theorem claim_C8_witness :
    lookupKey (Redacted TomlFieldName (sectionBVal "o2" "secret")) "password" =
      some (.vbool true) :=
  claim_C8_redaction TomlFieldName "SectionB"
    [(metaOption2, .str "o2"), (metaPassword, .str "secret")]
    (metaPassword, .str "secret") (List.Mem.tail _ (List.Mem.head _)) (by decide)

/-- C9: an adapter `Update` call whose argument list is not exactly one
element, or whose single element is not the adapter's own `Config` type,
returns an error and leaves the adapter's stored configuration fields
unchanged (shown for the telegram and slack adapters). -/
theorem claim_C9_update_rejects_bad_args :
    (∀ (s : Telegram.Service) (args : List Dyn),
        (¬ ∃ c, args = [Dyn.telegram c]) →
        (Telegram.Service.Update s args).1.isSome = true ∧
        (Telegram.Service.Update s args).2 = s) ∧
    (∀ (s : Slack.Service) (args : List Dyn),
        (¬ ∃ c, args = [Dyn.slack c]) →
        (Slack.Service.Update s args).1.isSome = true ∧
        (Slack.Service.Update s args).2 = s) := by
  constructor
  · intro s args h
    match args with
    | [] => exact ⟨rfl, rfl⟩
    | [Dyn.telegram c] => exact absurd ⟨c, rfl⟩ h
    | [Dyn.slack c] => exact ⟨rfl, rfl⟩
    | [Dyn.other nm] => exact ⟨rfl, rfl⟩
    | a :: b :: rest => simp [Telegram.Service.Update]
  · intro s args h
    match args with
    | [] => exact ⟨rfl, rfl⟩
    | [Dyn.slack c] => exact absurd ⟨c, rfl⟩ h
    | [Dyn.telegram c] => exact ⟨rfl, rfl⟩
    | [Dyn.other nm] => exact ⟨rfl, rfl⟩
    | a :: b :: rest => simp [Slack.Service.Update]

theorem claim_C9_witness :
    ((Telegram.Service.Update tgDemo []).1.isSome = true ∧
      (Telegram.Service.Update tgDemo []).2 = tgDemo) ∧
    ((Slack.Service.Update slackDemo [Dyn.other "x"]).1.isSome = true ∧
      (Slack.Service.Update slackDemo [Dyn.other "x"]).2 = slackDemo) :=
  ⟨claim_C9_update_rejects_bad_args.1 tgDemo [] (by simp),
   claim_C9_update_rejects_bad_args.2 slackDemo [Dyn.other "x"] (by simp)⟩

theorem splitChars_ne_nil (sep : Char) : ∀ l : List Char, splitChars sep l ≠ []
  | [] => by simp [splitChars]
  | c :: cs => by
      simp only [splitChars]
      cases h : splitChars sep cs with
      | nil => exact absurd h (splitChars_ne_nil sep cs)
      | cons a as =>
    by_cases hc : c = sep
    · simp [hc]
    · simp [hc]

theorem getSectionName_ok (m : FieldMeta) : (V1.getSectionName m).2 = true := by
  have h := splitChars_ne_nil ',' m.tagOverride.data
  have hl : 0 < (splitComma m.tagOverride).length := by
    simpa [splitComma] using List.length_pos.2 h
  simp [V1.getSectionName, hl]

theorem mem_markUsed (used : List String) (n x : String)
    (h : x ∈ V1.markUsed used n) : x ∈ used ∨ x = n := by
  by_cases hc : used.contains n
  · simp_all [V1.markUsed]
  · simp_all [V1.markUsed]
    tauto

theorem lookupKey_some_mem {α : Type} :
    ∀ (l : List (String × α)) (k : String) (v : α),
      lookupKey l k = some v → (k, v) ∈ l := by
  intro l
  induction l with
  | nil => intro k v h; simp [lookupKey] at h
  | cons hd t ih =>
    intro k v h
    obtain ⟨a, b⟩ := hd
    by_cases ha : a = k
    · subst ha
      simp [lookupKey] at h
      simp [h]
    · simp [lookupKey, ha] at h
      exact List.mem_cons_of_mem _ (ih k v h)

theorem declaredOptions_cons (nameFn : FieldMeta → String)
    (f : FieldMeta × GoVal) (rest : List (FieldMeta × GoVal)) (s : String) :
    declaredOptions nameFn (f :: rest) s =
      (if (V1.getSectionName f.1).1 = s then optionNames nameFn f.2 else []) ++
        declaredOptions nameFn rest s := by
  by_cases h : (V1.getSectionName f.1).1 = s
  · have hb : ((V1.getSectionName f.1).1 == s) = true := by simp [h]
    simp [declaredOptions, List.filter, h, hb]
  · have hb : ((V1.getSectionName f.1).1 == s) = false := by simp [h]
    simp [declaredOptions, List.filter, h, hb]

theorem applyOptions_used_subset (nameFn : FieldMeta → String)
    (set : List (String × GoVal)) :
    ∀ (fs : List (FieldMeta × GoVal)) (used : List String)
      (fs2 : List (FieldMeta × GoVal)) (used2 : List String),
      V1.applyOptions nameFn set fs used = .ok (fs2, used2) →
      ∀ x ∈ used2, x ∈ used ∨ x ∈ fs.map (fun g => nameFn g.1) := by
  intro fs
  induction fs with
  | nil =>
    intro used fs2 used2 h x hx
    simp [V1.applyOptions] at h
    exact Or.inl (h.2 ▸ hx)
  | cons g rest ih =>
    intro used fs2 used2 h x hx
    obtain ⟨m, v⟩ := g
    cases hl : lookupKey set (nameFn m) with
    | none =>
      simp only [V1.applyOptions, hl] at h
      cases hr : V1.applyOptions nameFn set rest used with
      | error e => rw [hr] at h; simp [Except.map] at h
      | ok r =>
        rw [hr] at h
        simp only [Except.map, Except.ok.injEq, Prod.mk.injEq] at h
        rcases ih used r.1 r.2 (by rw [hr]) x (by rw [h.2]; exact hx) with h1 | h2
        · exact Or.inl h1
        · exact Or.inr (by simp [h2])
    | some sv =>
      simp only [V1.applyOptions, hl] at h
      cases hw : V1.weakCopyValue sv v m.canSet with
      | error e => simp only [hw] at h; exact absurd h (by simp)
      | ok nv =>
        simp only [hw] at h
        cases hr : V1.applyOptions nameFn set rest (V1.markUsed used (nameFn m)) with
        | error e => rw [hr] at h; simp [Except.map] at h
        | ok r =>
          rw [hr] at h
          simp only [Except.map, Except.ok.injEq, Prod.mk.injEq] at h
          rcases ih _ r.1 r.2 (by rw [hr]) x (by rw [h.2]; exact hx) with h1 | h2
          · rcases mem_markUsed used (nameFn m) x h1 with h3 | h4
            · exact Or.inl h3
            · exact Or.inr (by simp [h4])
          · exact Or.inr (by simp [h2])

mutual
theorem applySectionValue_used_subset (nameFn : FieldMeta → String)
    (set : List (String × GoVal)) :
    ∀ (v : GoVal) (used : List String) (v2 : GoVal) (used2 : List String),
      V1.applySectionValue nameFn set v used = .ok (v2, used2) →
      ∀ x ∈ used2, x ∈ used ∨ x ∈ optionNames nameFn v
  | .strukt n fs, used, v2, used2 => by
      intro h x hx
      simp only [V1.applySectionValue] at h
      cases hr : V1.applyOptions nameFn set fs used with
      | error e => rw [hr] at h; simp [Except.map] at h
      | ok r =>
        rw [hr] at h
        simp only [Except.map, Except.ok.injEq, Prod.mk.injEq] at h
        have h2 := applyOptions_used_subset nameFn set fs used r.1 r.2
          (by rw [hr]) x (by rw [h.2]; exact hx)
        simpa [optionNames] using h2
  | .ptr (some v), used, v2, used2 => by
      intro h x hx
      simp only [V1.applySectionValue] at h
      cases hr : V1.applySectionValue nameFn set v used with
      | error e => rw [hr] at h; simp [Except.map] at h
      | ok r =>
        rw [hr] at h
        simp only [Except.map, Except.ok.injEq, Prod.mk.injEq] at h
        have h2 := applySectionValue_used_subset nameFn set v used r.1 r.2
          (by rw [hr]) x (by rw [h.2]; exact hx)
        simpa [optionNames] using h2
  | .slice k (some es), used, v2, used2 => by
      intro h x hx
      simp only [V1.applySectionValue] at h
      cases hr : V1.applySectionElems nameFn set es used with
      | error e => rw [hr] at h; simp [Except.map] at h
      | ok r =>
        rw [hr] at h
        simp only [Except.map, Except.ok.injEq, Prod.mk.injEq] at h
        have h2 := applySectionElems_used_subset nameFn set es used r.1 r.2
          (by rw [hr]) x (by rw [h.2]; exact hx)
        simpa [optionNames] using h2
  | .str a, used, v2, used2 => by
      intro h x hx
      simp only [V1.applySectionValue, Except.ok.injEq, Prod.mk.injEq] at h
      exact Or.inl (h.2 ▸ hx)
  | .vbool b, used, v2, used2 => by
      intro h x hx
      simp only [V1.applySectionValue, Except.ok.injEq, Prod.mk.injEq] at h
      exact Or.inl (h.2 ▸ hx)
  | .vint w a, used, v2, used2 => by
      intro h x hx
      simp only [V1.applySectionValue, Except.ok.injEq, Prod.mk.injEq] at h
      exact Or.inl (h.2 ▸ hx)
  | .vuint w a, used, v2, used2 => by
      intro h x hx
      simp only [V1.applySectionValue, Except.ok.injEq, Prod.mk.injEq] at h
      exact Or.inl (h.2 ▸ hx)
  | .vfloat w a, used, v2, used2 => by
      intro h x hx
      simp only [V1.applySectionValue, Except.ok.injEq, Prod.mk.injEq] at h
      exact Or.inl (h.2 ▸ hx)
  | .slice k none, used, v2, used2 => by
      intro h x hx
      simp only [V1.applySectionValue, Except.ok.injEq, Prod.mk.injEq] at h
      exact Or.inl (h.2 ▸ hx)
  | .array es, used, v2, used2 => by
      intro h x hx
      simp only [V1.applySectionValue, Except.ok.injEq, Prod.mk.injEq] at h
      exact Or.inl (h.2 ▸ hx)
  | .ptr none, used, v2, used2 => by
      intro h x hx
      simp only [V1.applySectionValue, Except.ok.injEq, Prod.mk.injEq] at h
      exact Or.inl (h.2 ▸ hx)
  | .dur a, used, v2, used2 => by
      intro h x hx
      simp only [V1.applySectionValue, Except.ok.injEq, Prod.mk.injEq] at h
      exact Or.inl (h.2 ▸ hx)

theorem applySectionElems_used_subset (nameFn : FieldMeta → String)
    (set : List (String × GoVal)) :
    ∀ (es : List GoVal) (used : List String) (es2 : List GoVal)
      (used2 : List String),
      V1.applySectionElems nameFn set es used = .ok (es2, used2) →
      ∀ x ∈ used2, x ∈ used ∨ x ∈ optionNamesElems nameFn es
  | [], used, es2, used2 => by
      intro h x hx
      simp only [V1.applySectionElems, Except.ok.injEq, Prod.mk.injEq] at h
      exact Or.inl (h.2 ▸ hx)
  | e :: es, used, es2, used2 => by
      intro h x hx
      cases h1 : V1.applySectionValue nameFn set e used with
      | error e2 => simp only [V1.applySectionElems, h1] at h; exact absurd h (by simp)
      | ok r1 =>
        obtain ⟨ev, u1⟩ := r1
        simp only [V1.applySectionElems, h1] at h
        cases h2 : V1.applySectionElems nameFn set es u1 with
        | error e2 => rw [h2] at h; simp [Except.map] at h
        | ok r2 =>
          rw [h2] at h
          simp only [Except.map, Except.ok.injEq, Prod.mk.injEq] at h
          have hx2 := applySectionElems_used_subset nameFn set es u1 r2.1 r2.2
            (by rw [h2]) x (by rw [h.2]; exact hx)
          rcases hx2 with hA | hB
          · have hx3 := applySectionValue_used_subset nameFn set e used ev u1 h1 x hA
            rcases hx3 with hC | hD
            · exact Or.inl hC
            · exact Or.inr (by simp [optionNamesElems, hD])
          · exact Or.inr (by simp [optionNamesElems, hB])
end

theorem walkTop_used_subset (nameFn : FieldMeta → String) (s : String)
    (set : List (String × GoVal)) :
    ∀ (cfg : List (FieldMeta × GoVal)) (cur : String) (ref : Option GoVal)
      (used : List String) (t : List (FieldMeta × GoVal)) (ref2 : Option GoVal)
      (used2 : List String),
      V1.walkTop nameFn s set cfg cur ref used = .ok (t, ref2, used2) →
      ∀ x ∈ used2, x ∈ used ∨ x ∈ declaredOptions nameFn cfg s := by
  intro cfg
  induction cfg with
  | nil =>
    intro cur ref used t ref2 used2 h x hx
    simp only [V1.walkTop, Except.ok.injEq, Prod.mk.injEq] at h
    exact Or.inl (h.2.2 ▸ hx)
  | cons f rest ih =>
    intro cur ref used t ref2 used2 h x hx
    obtain ⟨m, v⟩ := f
    have hok := getSectionName_ok m
    rw [declaredOptions_cons]
    by_cases hs1 : (V1.getSectionName m).1 = s
    · simp only [V1.walkTop, hok, hs1, beq_self_eq_true, Bool.true_and, if_true,
        eq_self_iff_true] at h
      cases h1 : V1.applySectionValue nameFn set v used with
      | error e => simp only [h1] at h; exact absurd h (by simp)
      | ok r1 =>
        obtain ⟨v2, u1⟩ := r1
        simp only [h1] at h
        cases h2 : V1.walkTop nameFn s set rest s (some v2) u1 with
        | error e => rw [h2] at h; simp [Except.map] at h
        | ok r2 =>
          rw [h2] at h
          simp only [Except.map, Except.ok.injEq, Prod.mk.injEq] at h
          have hx2 := ih s (some v2) u1 r2.1 r2.2.1 r2.2.2 (by rw [h2]) x
            (by rw [h.2]; exact hx)
          rcases hx2 with hA | hB
          · have hx3 := applySectionValue_used_subset nameFn set v used v2 u1 h1 x hA
            rcases hx3 with hC | hD
            · exact Or.inl hC
            · exact Or.inr (by simp [hs1, hD])
          · exact Or.inr (by simp [hs1, hB])
    · have hb : ((V1.getSectionName m).1 == s) = false := by simp [hs1]
      simp only [V1.walkTop, hok, hs1, hb, Bool.true_and, if_true, if_false,
        Bool.false_eq_true] at h
      cases h2 : V1.walkTop nameFn s set rest (V1.getSectionName m).1 ref used with
      | error e => rw [h2] at h; simp [Except.map] at h
      | ok r2 =>
        rw [h2] at h
        simp only [Except.map, Except.ok.injEq, Prod.mk.injEq] at h
        have hx2 := ih (V1.getSectionName m).1 ref used r2.1 r2.2.1 r2.2.2
          (by rw [h2]) x (by rw [h.2]; exact hx)
        rcases hx2 with hA | hB
        · exact Or.inl hA
        · exact Or.inr (by simp [hs1, hB])

theorem applyOptions_undeclared (nameFn : FieldMeta → String)
    (set : List (String × GoVal)) :
    ∀ (fs : List (FieldMeta × GoVal)) (used : List String),
      (∀ g ∈ fs, lookupKey set (nameFn (Prod.fst g)) = none) →
      V1.applyOptions nameFn set fs used = .ok (fs, used) := by
  intro fs
  induction fs with
  | nil => intro used h; simp [V1.applyOptions]
  | cons g rest ih =>
    intro used h
    obtain ⟨m, v⟩ := g
    have h0 : lookupKey set (nameFn m) = none := h (m, v) (by simp)
    simp [V1.applyOptions, h0, ih used (fun g hg => h g (by simp [hg])),
      Except.map]

mutual
theorem applySectionValue_undeclared (nameFn : FieldMeta → String)
    (set : List (String × GoVal)) :
    ∀ (v : GoVal) (used : List String),
      (∀ n ∈ optionNames nameFn v, lookupKey set n = none) →
      V1.applySectionValue nameFn set v used = .ok (v, used)
  | .strukt n fs, used => fun h => by
      have h2 : ∀ g ∈ fs, lookupKey set (nameFn (Prod.fst g)) = none := by
        intro g hg
        exact h (nameFn g.1) (List.mem_map_of_mem (fun g => nameFn g.1) hg)
      simp [V1.applySectionValue, applyOptions_undeclared nameFn set fs used h2,
        Except.map]
  | .ptr (some v), used => fun h => by
      simp [V1.applySectionValue,
        applySectionValue_undeclared nameFn set v used (by simpa [optionNames] using h),
        Except.map]
  | .slice k (some es), used => fun h => by
      simp [V1.applySectionValue,
        applySectionElems_undeclared nameFn set es used (by simpa [optionNames] using h),
        Except.map]
  | .str a, used => fun h => by simp [V1.applySectionValue]
  | .vbool b, used => fun h => by simp [V1.applySectionValue]
  | .vint w a, used => fun h => by simp [V1.applySectionValue]
  | .vuint w a, used => fun h => by simp [V1.applySectionValue]
  | .vfloat w a, used => fun h => by simp [V1.applySectionValue]
  | .slice k none, used => fun h => by simp [V1.applySectionValue]
  | .array es, used => fun h => by simp [V1.applySectionValue]
  | .ptr none, used => fun h => by simp [V1.applySectionValue]
  | .dur a, used => fun h => by simp [V1.applySectionValue]

theorem applySectionElems_undeclared (nameFn : FieldMeta → String)
    (set : List (String × GoVal)) :
    ∀ (es : List GoVal) (used : List String),
      (∀ n ∈ optionNamesElems nameFn es, lookupKey set n = none) →
      V1.applySectionElems nameFn set es used = .ok (es, used)
  | [], used => fun h => by simp [V1.applySectionElems]
  | e :: es, used => fun h => by
      have he : ∀ n ∈ optionNames nameFn e, lookupKey set n = none := by
        intro n hn
        exact h n (by simp [optionNamesElems, hn])
      have hes : ∀ n ∈ optionNamesElems nameFn es, lookupKey set n = none := by
        intro n hn
        exact h n (by simp [optionNamesElems, hn])
      simp [V1.applySectionElems,
        applySectionValue_undeclared nameFn set e used he,
        applySectionElems_undeclared nameFn set es used hes, Except.map]
end

theorem walkTop_undeclared (nameFn : FieldMeta → String) (s : String)
    (set : List (String × GoVal)) :
    ∀ (cfg : List (FieldMeta × GoVal)) (cur : String) (ref : Option GoVal)
      (used : List String),
      (∀ x ∈ declaredOptions nameFn cfg s, lookupKey set x = none) →
      V1.walkTop nameFn s set cfg cur ref used =
        .ok (cfg, walkRef s cfg ref, used) := by
  intro cfg
  induction cfg with
  | nil => intro cur ref used h; simp [V1.walkTop, walkRef]
  | cons f rest ih =>
    intro cur ref used h
    obtain ⟨m, v⟩ := f
    have hok := getSectionName_ok m
    rw [declaredOptions_cons] at h
    by_cases hs1 : (V1.getSectionName m).1 = s
    · have hv : ∀ n ∈ optionNames nameFn v, lookupKey set n = none := by
        intro n hn
        exact h n (by simp [hs1, hn])
      have hr : ∀ x ∈ declaredOptions nameFn rest s, lookupKey set x = none := by
        intro n hn
        exact h n (by simp [hn])
      simp only [V1.walkTop, hok, hs1, beq_self_eq_true, Bool.true_and, if_true,
        eq_self_iff_true, applySectionValue_undeclared nameFn set v used hv,
        ih s (some v) used hr, Except.map]
      simp [walkRef, hs1, hok]
    · have hb : ((V1.getSectionName m).1 == s) = false := by simp [hs1]
      have hr : ∀ x ∈ declaredOptions nameFn rest s, lookupKey set x = none := by
        intro n hn
        exact h n (by simp [hn])
      simp only [V1.walkTop, hok, hs1, hb, Bool.true_and, if_true, if_false,
        Bool.false_eq_true, ih (V1.getSectionName m).1 ref used hr, Except.map]
      simp [walkRef, hs1, hb, hok]

theorem Override_unknown_key (nameFn : FieldMeta → String)
    (cfg : List (FieldMeta × GoVal)) (s key : String)
    (m : List (String × GoVal)) (w : GoVal)
    (hs : s ≠ "") (hk : key ∉ declaredOptions nameFn cfg s)
    (hm : lookupKey m key = some w) :
    ∃ e, V1.Override nameFn cfg s m = .error e := by
  cases hw : V1.walkTop nameFn s m cfg "" none [] with
  | error e =>
    refine ⟨"failed to apply changes to configuration object for section " ++
      s ++ ": " ++ e, ?_⟩
    simp [V1.Override, hs, deepCopyFields_eq, hw]
  | ok r =>
    obtain ⟨t, ref, used⟩ := r
    have hku : key ∉ used := by
      intro hin
      rcases walkTop_used_subset nameFn s m cfg "" none [] t ref used hw key hin
        with h1 | h2
      · simp at h1
      · exact hk h2
    have hmem : (key, w) ∈ m := lookupKey_some_mem m key w hm
    have hfil : (key, w) ∈ m.filter (fun kv => !(used.contains kv.1)) :=
      List.mem_filter.2 ⟨hmem, by simp [hku]⟩
    refine ⟨"unknown options in section " ++ s, ?_⟩
    simp only [V1.Override, hs, if_false, deepCopyFields_eq, hw]
    cases hcase : ((m.filter (fun kv => !(used.contains kv.1))).map
        (fun kv => kv.1)).isEmpty with
    | false => simp [hcase]
    | true =>
      exfalso
      have hnil : m.filter (fun kv => !(used.contains kv.1)) = [] := by
        have hmap := List.isEmpty_iff.1 hcase
        simpa using congrArg List.length hmap
      exact List.ne_nil_of_mem hfil hnil

theorem Override_singleton_unknown (nameFn : FieldMeta → String)
    (cfg : List (FieldMeta × GoVal)) (s key : String) (val : GoVal)
    (hs : s ≠ "") (hk : key ∉ declaredOptions nameFn cfg s) :
    V1.Override nameFn cfg s [(key, val)] =
      .error ("unknown options in section " ++ s) := by
  have hnone : ∀ x ∈ declaredOptions nameFn cfg s,
      lookupKey [(key, val)] x = none := by
    intro x hx
    have hne : key ≠ x := fun he => hk (he ▸ hx)
    simp [lookupKey, hne]
  simp only [V1.Override, hs, if_false, deepCopyFields_eq,
    walkTop_undeclared nameFn s [(key, val)] cfg "" none [] hnone]
  simp [List.filter]

/-- C2 (amended): for every configuration schema, every stored-override
state, every non-empty section name and every option name that is not
declared anywhere on that section, a POST that sets that option fails with
a 400 Bad Request — yet the persisted override store is NOT left unchanged:
`applyUpdateAction` persisted the merged record, unknown key included,
before resolution was attempted, and it is not rolled back; when no
override record was stored for the section, the failure is precisely the
unknown-options error and the store gains exactly the unknown entry. -/
theorem claim_C2_unknown_option (cfg : List (FieldMeta × GoVal))
    (store : ConfigService.Store) (s key : String) (val : GoVal)
    (hs : s ≠ "") (hk : key ∉ declaredOptions TomlFieldName cfg s) :
    (∃ e, (ConfigService.handleUpdateSection cfg store s
        { set := [(key, val)] }).1 = .badRequest e) ∧
    (ConfigService.handleUpdateSection cfg store s { set := [(key, val)] }).2 =
      setKey store s (setKey ((lookupKey store s).getD []) key val) ∧
    ((lookupKey store s).getD [] = [] →
      ConfigService.handleUpdateSection cfg store s { set := [(key, val)] } =
        (.badRequest ("failed to update config:" ++
            ("unknown options in section " ++ s)),
         setKey store s [(key, val)])) := by
  have hr : ConfigService.applyUpdateAction store s { set := [(key, val)] } =
      (setKey ((lookupKey store s).getD []) key val,
       setKey store s (setKey ((lookupKey store s).getD []) key val)) := rfl
  have hlk : lookupKey (setKey ((lookupKey store s).getD []) key val) key =
      some val := lookupKey_setKey_self _ _ _
  obtain ⟨e, he⟩ := Override_unknown_key TomlFieldName cfg s key _ val hs hk hlk
  refine ⟨⟨"failed to update config:" ++ e, ?_⟩, ?_, ?_⟩
  · simp only [ConfigService.handleUpdateSection, hs, if_false, hr, he]
  · simp only [ConfigService.handleUpdateSection, hs, if_false, hr, he]
  · intro h0
    have hov := Override_singleton_unknown TomlFieldName cfg s key val hs hk
    have hmerged : setKey ((lookupKey store s).getD []) key val =
        [(key, val)] := by rw [h0]; rfl
    simp only [ConfigService.handleUpdateSection, hs, if_false, hr, hmerged, hov]

theorem claim_C2_witness :
    ("option-nonexistent" ∉ declaredOptions TomlFieldName testConfig "section-a") ∧
    ((∃ e, (ConfigService.handleUpdateSection testConfig [] "section-a"
        { set := [("option-nonexistent", GoVal.vfloat .f64 1)] }).1 =
          .badRequest e) ∧
    (ConfigService.handleUpdateSection testConfig [] "section-a"
        { set := [("option-nonexistent", GoVal.vfloat .f64 1)] }).2 =
      setKey [] "section-a"
        (setKey ((lookupKey ([] : ConfigService.Store) "section-a").getD [])
          "option-nonexistent" (GoVal.vfloat .f64 1)) ∧
    ((lookupKey ([] : ConfigService.Store) "section-a").getD [] = [] →
      ConfigService.handleUpdateSection testConfig [] "section-a"
          { set := [("option-nonexistent", GoVal.vfloat .f64 1)] } =
        (.badRequest ("failed to update config:" ++
            ("unknown options in section " ++ "section-a")),
         setKey [] "section-a" [("option-nonexistent", GoVal.vfloat .f64 1)]))) :=
  ⟨by decide,
   claim_C2_unknown_option testConfig [] "section-a" "option-nonexistent"
     (GoVal.vfloat .f64 1) (by decide) (by decide)⟩

/-- C2, the claim as stated: setting an unknown option does return the
unknown-options failure, but it does not leave the persisted store
unchanged — at this concrete input the store gains the merged record. -/
theorem claim_C2_counterexample :
    (ConfigService.handleUpdateSection testConfig [] "section-a"
        { set := [("option-nonexistent", .vfloat .f64 1)] }).1 =
      .badRequest "failed to update config:unknown options in section section-a" ∧
    (ConfigService.handleUpdateSection testConfig [] "section-a"
        { set := [("option-nonexistent", .vfloat .f64 1)] }).2 ≠ [] := by
  constructor
  · rfl
  · have h : (ConfigService.handleUpdateSection testConfig [] "section-a"
        { set := [("option-nonexistent", .vfloat .f64 1)] }).2 =
      [("section-a", [("option-nonexistent", GoVal.vfloat .f64 1)])] := rfl
    rw [h]
    simp

/-- C7: starting from a section with no stored override, applying the update
action `set k=x` followed by the update action `delete k` (each merged
through the stored override record) leaves an empty merged override map, and
resolving the section with it returns the section's entire original value —
option `k` restored to its original value and every other option
untouched. -/
theorem claim_C7_set_delete_roundtrip (cfg : List (FieldMeta × GoVal))
    (store : ConfigService.Store) (s k : String) (x : GoVal) (v : GoVal)
    (hs : s ≠ "") (h0 : (lookupKey store s).getD [] = [])
    (hf : findSectionV1 cfg s = some v) :
    (ConfigService.applyUpdateAction
        (ConfigService.applyUpdateAction store s { set := [(k, x)] }).2 s
        { del := [k] }).1 = [] ∧
    V1.Override TomlFieldName cfg s
        (ConfigService.applyUpdateAction
          (ConfigService.applyUpdateAction store s { set := [(k, x)] }).2 s
          { del := [k] }).1 = .ok ⟨v⟩ := by
  have hrec : (ConfigService.applyUpdateAction
      (ConfigService.applyUpdateAction store s { set := [(k, x)] }).2 s
      { del := [k] }).1 = [] := by
    simp [ConfigService.applyUpdateAction, h0, lookupKey_setKey_self, setKey,
      eraseKey]
  refine ⟨hrec, ?_⟩
  rw [hrec, Override_nil TomlFieldName cfg s hs, hf]

theorem claim_C7_witness :
    (ConfigService.applyUpdateAction
        (ConfigService.applyUpdateAction [] "section-a"
          { set := [("option-1", .str "new-o1")] }).2 "section-a"
        { del := ["option-1"] }).1 = [] ∧
    V1.Override TomlFieldName testConfig "section-a"
        (ConfigService.applyUpdateAction
          (ConfigService.applyUpdateAction [] "section-a"
            { set := [("option-1", .str "new-o1")] }).2 "section-a"
          { del := ["option-1"] }).1 = .ok ⟨sectionAVal "o1"⟩ :=
  claim_C7_set_delete_roundtrip testConfig [] "section-a" "option-1"
    (.str "new-o1") (sectionAVal "o1") (by decide) rfl rfl
